import Mathlib

/-!
Verification development for the WebSpec compiler/runtime
(`packages/compiler/src/index.ts`, `packages/runtime/src/index.ts`,
`packages/shared/src/{hash.ts,decisions.ts,types.ts}`).

The TypeScript sources are shallowly embedded: JS strings become `String`,
JS numbers in scoring code become `ℚ`, 32-bit arithmetic in SHA-256 becomes
`Nat` reduced mod 2^32, thrown exceptions become `Except String`, and the
external `picomatch.isMatch` glob matcher (a library both the compiler and
the runtime call) is threaded through as an explicit function parameter
`pm : String → String → Bool`.
-/

namespace WebSpec

/-! ## JavaScript string primitives

Models of the JS string operations the sources use: `trim`,
`split(/\s+/)`, `includes`, `toLowerCase`, and the character class `\s`. -/

/-- JS `\s` whitespace class restricted to its ASCII members, which is what
the sources can encounter in practice. -/
def isWsJ (c : Char) : Bool :=
  c == ' ' || c == '\t' || c == '\n' || c == '\r' || c == '\x0b' || c == '\x0c'

/-- Drop trailing characters satisfying `p`. -/
def dropEndWhile (p : Char → Bool) (l : List Char) : List Char :=
  (l.reverse.dropWhile p).reverse

/-- JS `String.prototype.trim`. -/
def trimJ (s : String) : String :=
  String.mk (dropEndWhile isWsJ (s.data.dropWhile isWsJ))

/-- Split a character list on runs of JS whitespace, dropping empty pieces. -/
def wsWords : List Char → List Char → List (List Char)
  | cur, [] => if cur.isEmpty then [] else [cur.reverse]
  | cur, c :: rest =>
    if isWsJ c then
      if cur.isEmpty then wsWords [] rest else cur.reverse :: wsWords [] rest
    else wsWords (c :: cur) rest

/-- JS `s.split(/\s+/).filter(Boolean)`-style word list. -/
def splitWsJ (s : String) : List String :=
  (wsWords [] s.data).map String.mk

/-- JS `cmd.trim().split(/\s+/)[0] ?? ""`: the leading whitespace-delimited
token of a command (the empty string when the command is all whitespace,
because `"".split(/\s+/)` is `[""]`). -/
def leadTokenJ (cmd : String) : String :=
  match splitWsJ (trimJ cmd) with
  | [] => ""
  | t :: _ => t

/-- Does `hay` start with `needle`? -/
def startsWithL : List Char → List Char → Bool
  | _, [] => true
  | [], _ :: _ => false
  | a :: as, b :: bs => a == b && startsWithL as bs

/-- Substring scan used by `inclJ`. -/
def subAux (needle : List Char) : List Char → Bool
  | [] => startsWithL [] needle
  | c :: t => startsWithL (c :: t) needle || subAux needle t

/-- JS `String.prototype.includes` (substring containment). -/
def inclJ (hay needle : String) : Bool :=
  subAux needle.data hay.data

/-! ## SHA-256

`packages/shared/src/hash.ts` delegates to `@noble/hashes`:
`sha256Hex(text) = bytesToHex(sha256(utf8Encode(text)))`.  The digest
itself is external library code, embedded here as the FIPS 180-4
algorithm over `Nat` bytes/words reduced mod 2^32. -/

/-- Reduce to a 32-bit word. -/
def w32 (x : Nat) : Nat := x % 4294967296

/-- 32-bit rotate right. -/
def rotr32 (x n : Nat) : Nat := w32 ((x >>> n) ||| (x <<< (32 - n)))

def bsig0 (x : Nat) : Nat := rotr32 x 2 ^^^ rotr32 x 13 ^^^ rotr32 x 22
def bsig1 (x : Nat) : Nat := rotr32 x 6 ^^^ rotr32 x 11 ^^^ rotr32 x 25
def ssig0 (x : Nat) : Nat := rotr32 x 7 ^^^ rotr32 x 18 ^^^ (x >>> 3)
def ssig1 (x : Nat) : Nat := rotr32 x 17 ^^^ rotr32 x 19 ^^^ (x >>> 10)
def chF (x y z : Nat) : Nat := (x &&& y) ^^^ ((x ^^^ 4294967295) &&& z)
def majF (x y z : Nat) : Nat := (x &&& y) ^^^ (x &&& z) ^^^ (y &&& z)

/-- SHA-256 round constants. -/
def sha256K : List Nat :=
  [0x428a2f98, 0x71374491, 0xb5c0fbcf, 0xe9b5dba5,
   0x3956c25b, 0x59f111f1, 0x923f82a4, 0xab1c5ed5] ++
  [0xd807aa98, 0x12835b01, 0x243185be, 0x550c7dc3,
   0x72be5d74, 0x80deb1fe, 0x9bdc06a7, 0xc19bf174] ++
  [0xe49b69c1, 0xefbe4786, 0x0fc19dc6, 0x240ca1cc,
   0x2de92c6f, 0x4a7484aa, 0x5cb0a9dc, 0x76f988da] ++
  [0x983e5152, 0xa831c66d, 0xb00327c8, 0xbf597fc7,
   0xc6e00bf3, 0xd5a79147, 0x06ca6351, 0x14292967] ++
  [0x27b70a85, 0x2e1b2138, 0x4d2c6dfc, 0x53380d13,
   0x650a7354, 0x766a0abb, 0x81c2c92e, 0x92722c85] ++
  [0xa2bfe8a1, 0xa81a664b, 0xc24b8b70, 0xc76c51a3,
   0xd192e819, 0xd6990624, 0xf40e3585, 0x106aa070] ++
  [0x19a4c116, 0x1e376c08, 0x2748774c, 0x34b0bcb5,
   0x391c0cb3, 0x4ed8aa4a, 0x5b9cca4f, 0x682e6ff3] ++
  [0x748f82ee, 0x78a5636f, 0x84c87814, 0x8cc70208,
   0x90befffa, 0xa4506ceb, 0xbef9a3f7, 0xc67178f2]

/-- SHA-256 initial hash state. -/
def sha256H0 : List Nat :=
  [0x6a09e667, 0xbb67ae85, 0x3c6ef372, 0xa54ff53a,
   0x510e527f, 0x9b05688c, 0x1f83d9ab, 0x5be0cd19]

/-- Big-endian 8-byte encoding. -/
def be64 (n : Nat) : List Nat :=
  [(n >>> 56) % 256, (n >>> 48) % 256, (n >>> 40) % 256, (n >>> 32) % 256,
   (n >>> 24) % 256, (n >>> 16) % 256, (n >>> 8) % 256, n % 256]

/-- Big-endian 4-byte encoding. -/
def be32 (n : Nat) : List Nat :=
  [(n >>> 24) % 256, (n >>> 16) % 256, (n >>> 8) % 256, n % 256]

/-- FIPS 180-4 message padding: `0x80`, zeros to 56 mod 64, 64-bit length. -/
def padMsg (msg : List Nat) : List Nat :=
  let l := msg.length
  let padZeros := (119 - (l % 64)) % 64
  msg ++ [0x80] ++ List.replicate padZeros 0 ++ be64 (8 * l)

/-- Big-endian 32-bit words from a byte list. -/
def toWords : List Nat → List Nat
  | a :: b :: c :: d :: rest =>
    (a * 16777216 + b * 65536 + c * 256 + d) :: toWords rest
  | _ => []

/-- Chunk splitter: `cur` holds the current chunk reversed, `k` its
remaining capacity. -/
def chunksGo (cur : List Nat) (k : Nat) : List Nat → List (List Nat)
  | [] => if cur.isEmpty then [] else [cur.reverse]
  | b :: rest =>
    match k with
    | 0 => cur.reverse :: chunksGo [b] 63 rest
    | k + 1 => chunksGo (b :: cur) k rest

/-- Split into 64-byte chunks. -/
def chunks64 (l : List Nat) : List (List Nat) := chunksGo [] 64 l

/-- Extend the 16-word schedule by `n` further words. -/
def extendW (w : List Nat) : Nat → List Nat
  | 0 => w
  | n + 1 =>
    let k := w.length
    extendW
      (w ++ [w32 (ssig1 (w.getD (k - 2) 0) + w.getD (k - 7) 0 +
                  ssig0 (w.getD (k - 15) 0) + w.getD (k - 16) 0)]) n

/-- One compression round on the 8-word working state. -/
def sha256Round (st : List Nat) (wk : Nat × Nat) : List Nat :=
  match st with
  | [a, b, c, d, e, f, g, h] =>
    let t1 := w32 (h + bsig1 e + chF e f g + wk.2 + wk.1)
    let t2 := w32 (bsig0 a + majF a b c)
    [w32 (t1 + t2), a, b, c, w32 (d + t1), e, f, g]
  | _ => st

/-- Compress one 64-byte block into the running state. -/
def processBlock (h : List Nat) (block : List Nat) : List Nat :=
  let w := extendW (toWords block) 48
  let st := (w.zip sha256K).foldl sha256Round h
  (h.zip st).map (fun p => w32 (p.1 + p.2))

/-- SHA-256 digest bytes of a byte message. -/
def sha256Bytes (msg : List Nat) : List Nat :=
  ((chunks64 (padMsg msg)).foldl processBlock sha256H0).flatMap be32

/-- Lowercase hex digit. -/
def hexDigit (n : Nat) : Char :=
  if n < 10 then Char.ofNat (48 + n) else Char.ofNat (87 + n)

/-- Lowercase hex string of a byte list (`bytesToHex` of `@noble/hashes`). -/
def bytesToHex (bs : List Nat) : String :=
  String.mk (bs.flatMap (fun b => [hexDigit (b / 16), hexDigit (b % 16)]))

/-- UTF-8 encoding of one character (`TextEncoder`). -/
def utf8Char (c : Char) : List Nat :=
  let n := c.toNat
  if n < 128 then [n]
  else if n < 2048 then [192 + n / 64, 128 + n % 64]
  else if n < 65536 then [224 + n / 4096, 128 + (n / 64) % 64, 128 + n % 64]
  else [240 + n / 262144, 128 + (n / 4096) % 64, 128 + (n / 64) % 64, 128 + n % 64]

/-- UTF-8 bytes of a string (`TextEncoder.encode`). -/
def utf8Bytes (s : String) : List Nat := s.data.flatMap utf8Char

/-- `sha256Hex` from `packages/shared/src/hash.ts`. -/
def sha256Hex (text : String) : String := bytesToHex (sha256Bytes (utf8Bytes text))

/-! ## JSON-ish values and JavaScript coercions

Macro arguments arrive from YAML as arbitrary values (`Record<string,
unknown>`), which the compiler feeds to `JSON.stringify` and JS string
coercion.  `JVal` models that value space. -/

inductive JVal where
  | jnull
  | jbool (b : Bool)
  | jnum (n : Int)
  | jstr (s : String)
  | jarr (elems : List JVal)
  | jobj (fields : List (String × JVal))
deriving Repr

/-- JSON escaping of one character, as `JSON.stringify` does. -/
def escChar (c : Char) : List Char :=
  if c == '"' then ['\\', '"']
  else if c == '\\' then ['\\', '\\']
  else if c == '\n' then ['\\', 'n']
  else if c == '\r' then ['\\', 'r']
  else if c == '\t' then ['\\', 't']
  else if c == '\x08' then ['\\', 'b']
  else if c == '\x0c' then ['\\', 'f']
  else if c.toNat < 32 then
    '\\' :: 'u' :: '0' :: '0' :: [hexDigit (c.toNat / 16), hexDigit (c.toNat % 16)]
  else [c]

/-- A JSON string literal. -/
def jsonQuote (s : String) : String :=
  "\"" ++ String.mk (s.data.flatMap escChar) ++ "\""

mutual

/-- `JSON.stringify` on a `JVal`. -/
def stringify : JVal → String
  | .jnull => "null"
  | .jbool true => "true"
  | .jbool false => "false"
  | .jnum n => toString n
  | .jstr s => jsonQuote s
  | .jarr l => "[" ++ String.intercalate "," (stringifyList l) ++ "]"
  | .jobj fs => "\x7b" ++ String.intercalate "," (stringifyFields fs) ++ "\x7d"

def stringifyList : List JVal → List String
  | [] => []
  | v :: vs => stringify v :: stringifyList vs

def stringifyFields : List (String × JVal) → List String
  | [] => []
  | (k, v) :: fs => (jsonQuote k ++ ":" ++ stringify v) :: stringifyFields fs

end

mutual

/-- JS `String(v)` coercion of a `JVal` (arrays print as `join(",")`,
objects as `[object Object]`). -/
def jsString : JVal → String
  | .jnull => "null"
  | .jbool true => "true"
  | .jbool false => "false"
  | .jnum n => toString n
  | .jstr s => s
  | .jarr l => String.intercalate "," (jsJoinList l)
  | .jobj _ => "[object Object]"

/-- Elements under `Array.prototype.join`: `null` renders empty. -/
def jsJoinList : List JVal → List String
  | [] => []
  | .jnull :: vs => "" :: jsJoinList vs
  | v :: vs => jsString v :: jsJoinList vs

end

/-! ## Template variable substitution (`render`, compiler lines 26-34)

`render` performs two sequential `String.replace` passes:
`${name...}` (array values joined by spaces) first, then `${name}`. -/

/-- Dropping a prefix cannot lengthen a list (termination helper). -/
theorem lengthDropWhileLe (p : Char → Bool) (l : List Char) :
    (l.dropWhile p).length ≤ l.length := by
  induction l with
  | nil => simp [List.dropWhile]
  | cons a t ih =>
    by_cases h : p a
    · simp only [List.dropWhile, h, List.length_cons]
      exact Nat.le_trans ih (Nat.le_succ _)
    · simp [List.dropWhile, h]

/-- `[A-Za-z0-9_]`, the placeholder-name character class. -/
def isWordChar (c : Char) : Bool :=
  let n := c.toNat
  (97 ≤ n && n ≤ 122) || (65 ≤ n && n ≤ 90) || (48 ≤ n && n ≤ 57) || n == 95

/-- Variable lookup: JS `vars[k]`. -/
def lookupVar (vars : List (String × JVal)) (k : String) : Option JVal :=
  match vars.find? (fun p => p.1 == k) with
  | some p => some p.2
  | none => none

/-- Value of a `${name...}` placeholder: arrays join with spaces, otherwise
`String(v ?? "")`. -/
def dotsValue (v : Option JVal) : String :=
  match v with
  | some (.jarr l) => String.intercalate " " (jsJoinList l)
  | some .jnull => ""
  | some v => jsString v
  | none => ""

/-- Value of a `${name}` placeholder: `String(vars[k] ?? "")`. -/
def plainValue : Option JVal → String
  | none => ""
  | some .jnull => ""
  | some v => jsString v

/-- First `render` pass: replace every `${name...}`.  Fuel-indexed for
structural recursion; every step consumes at least one character, so fuel
equal to the character count (what `renderDots` supplies) never runs out.
A failed match after `${` emits both characters and rescans from the rest,
which is what the regex engine's single-character advance amounts to,
since a fresh match cannot begin at the `\x7b`. -/
def renderDotsF (vars : List (String × JVal)) : Nat → List Char → List Char
  | 0, l => l
  | fuel + 1, '$' :: '\x7b' :: rest =>
    let name := rest.takeWhile isWordChar
    let after := rest.dropWhile isWordChar
    if name ≠ [] && startsWithL after ['.', '.', '.', '\x7d'] then
      (dotsValue (lookupVar vars (String.mk name))).data ++ renderDotsF vars fuel (after.drop 4)
    else '$' :: '\x7b' :: renderDotsF vars fuel rest
  | fuel + 1, c :: cs => c :: renderDotsF vars fuel cs
  | _, [] => []

def renderDots (vars : List (String × JVal)) (l : List Char) : List Char :=
  renderDotsF vars l.length l

/-- Second `render` pass: replace every `${name}` (same fuel discipline). -/
def renderPlainF (vars : List (String × JVal)) : Nat → List Char → List Char
  | 0, l => l
  | fuel + 1, '$' :: '\x7b' :: rest =>
    let name := rest.takeWhile isWordChar
    let after := rest.dropWhile isWordChar
    if name ≠ [] && startsWithL after ['\x7d'] then
      (plainValue (lookupVar vars (String.mk name))).data ++ renderPlainF vars fuel (after.drop 1)
    else '$' :: '\x7b' :: renderPlainF vars fuel rest
  | fuel + 1, c :: cs => c :: renderPlainF vars fuel cs
  | _, [] => []

def renderPlain (vars : List (String × JVal)) (l : List Char) : List Char :=
  renderPlainF vars l.length l

/-- `render` from the compiler: both passes in source order. -/
def render (str : String) (vars : List (String × JVal)) : String :=
  String.mk (renderPlain vars (renderDots vars str.data))

/-! ## Fuzzy text similarity (runtime lines 77-128) -/

/-- Lowercase ASCII letter or digit. -/
def isLowerAlnum (c : Char) : Bool :=
  let n := c.toNat
  (97 ≤ n && n ≤ 122) || (48 ≤ n && n ≤ 57)

/-- `normalizeText`: lowercase, replace `[^a-z0-9\s]` by a space, collapse
whitespace runs to single spaces, trim. -/
def normalizeText (text : String) : String :=
  let lowered := text.data.map Char.toLower
  let folded := lowered.map (fun c => if isLowerAlnum c || isWsJ c then c else ' ')
  String.intercalate " " ((wsWords [] folded).map String.mk)

/-- `tokenize`: words of the normalized text. -/
def tokenizeJ (text : String) : List String :=
  splitWsJ (normalizeText text)

/-- First-occurrence deduplication with a seen-accumulator (JS `Set`
insertion order). -/
def dedupGo (seen : List String) : List String → List String
  | [] => []
  | x :: xs => if seen.contains x then dedupGo seen xs else x :: dedupGo (seen ++ [x]) xs

/-- First-occurrence deduplication (JS `Set` insertion order). -/
def dedupFirst (l : List String) : List String := dedupGo [] l

/-- `jaccard`: token-set intersection over union (1 on two empty sets). -/
def jaccardQ (aTokens bTokens : List String) : ℚ :=
  let aSet := dedupFirst aTokens
  let bSet := dedupFirst bTokens
  let inter := aSet.filter (fun t => bSet.contains t)
  let union := dedupFirst (aSet ++ bSet)
  if union.length = 0 then 1 else Rat.divInt inter.length union.length

/-- Character pairs of consecutive positions. -/
def pairsOf : List Char → List (List Char)
  | a :: b :: rest => [a, b] :: pairsOf (b :: rest)
  | _ => []

/-- `bigrams`: character bigrams of the normalized text (the whole string as
a single entry when shorter than 2). -/
def bigramsJ (text : String) : List (List Char) :=
  let s := (normalizeText text).data
  if s.length < 2 then [s] else pairsOf s

/-- The multiset-intersection count of `diceCoefficient`: each element of
`b` consumes at most one remaining occurrence in `a`. -/
def diceInter : List (List Char) → List (List Char) → Nat
  | _, [] => 0
  | rem, t :: ts => if rem.contains t then 1 + diceInter (rem.erase t) ts else diceInter rem ts

/-- `diceCoefficient` on two bigram lists (1 when both are empty). -/
def diceCoefficientQ (a b : List (List Char)) : ℚ :=
  if a.length + b.length = 0 then 1
  else Rat.divInt (2 * diceInter a b) (a.length + b.length)

/-- JS `Math.max` on two rationals (kernel-reducible). -/
def maxQ (a b : ℚ) : ℚ := if a ≤ b then b else a

/-- `fuzzyScore`: 1 when either raw text contains the other as a substring,
otherwise the maximum of token Jaccard and bigram Dice. -/
def fuzzyScore (a b : String) : ℚ :=
  if inclJ a b || inclJ b a then 1
  else maxQ (jaccardQ (tokenizeJ a) (tokenizeJ b)) (diceCoefficientQ (bigramsJ a) (bigramsJ b))

/-! ## Data model (`packages/shared/src/types.ts`)

The post-validation document shapes.  `WebSpecV1`/`WebSpecV2` share one
`Spec` record whose v2-only members are `Option`s, exactly as the compiler
reads them (it accesses `spec.intent`, `spec.effects`, … regardless of
`lang`, getting `undefined` on a v1 document).  Enumerated string unions
(`status`, `expansionPolicy`) stay `String` because the sources compare
them with `===` against string literals. -/

/-- Componentwise decidable equality for `Except` results. -/
instance {α β : Type} [DecidableEq α] [DecidableEq β] : DecidableEq (Except α β)
  | .error a, .error b =>
    if h : a = b then .isTrue (by rw [h]) else .isFalse (fun hh => by cases hh; exact h rfl)
  | .error _, .ok _ => .isFalse (fun hh => by cases hh)
  | .ok _, .error _ => .isFalse (fun hh => by cases hh)
  | .ok a, .ok b =>
    if h : a = b then .isTrue (by rw [h]) else .isFalse (fun hh => by cases hh; exact h rfl)

inductive Severity where
  | error
  | warn
  | info
deriving DecidableEq, Repr

structure Diag where
  code : String
  severity : Severity
  message : String
  hint : Option String
  path : Option String
deriving DecidableEq, Repr

/-- `diag(...)` from the compiler.  Every call site in the current source
leaves the `severity` parameter at its default `"error"`. -/
def diagE (code message : String) (hint path : Option String) : Diag :=
  ⟨code, .error, message, hint, path⟩

inductive SpecLang where
  | v01
  | v02
deriving DecidableEq, Repr

structure Project where
  name : String
  repo : Option String
  visibility : Option String
deriving DecidableEq, Repr

structure Workspace where
  aiDir : String
  keepTracked : List String
deriving DecidableEq, Repr

structure ShadcnUI where
  components : List String
deriving DecidableEq, Repr

structure UIDecl where
  shadcn : Option ShadcnUI
deriving DecidableEq, Repr

structure RouteDecl where
  path : String
  page : String
deriving DecidableEq, Repr

/-- `WebSpecEnsure`.  Ensures are `z.any()` at the schema level; shapes
other than the nine known keys collapse to `unknownEnsure` (they carry no
data the compiler ever reads). -/
inductive EnsureDecl where
  | exists_ (path : String)
  | contains (path text : String)
  | routeExists (route : String)
  | cmdOk (cmd : String)
  | trackedOnly (glob : String) (allow : List String)
  | docSection (path heading : String)
  | docContains (path text : String)
  | docContainsFuzzy (path text : String) (threshold : Option ℚ) (gate : Option Bool)
  | artifactExists (path : String)
  | unknownEnsure
deriving DecidableEq, Repr

/-- `WebSpecAction` (also schema-level `z.any()`; unknown shapes collapse
to `unknownAction`). -/
inductive ActionDecl where
  | run (cmd : String)
  | writeFile (path : String) (content : Option String) (template : Option String)
      (vars : Option (List (String × String)))
  | appendFile (path content : String)
  | writeTemplate (path template : String) (vars : Option (List (String × String)))
  | macroCall (name : String) (args : Option (List (String × JVal)))
  | unknownAction
deriving Repr

structure StepDecl where
  id : String
  requires : Option (List String)
  claims : Option (List String)
  decisions : Option (List String)
  actions : List ActionDecl
  ensures : List EnsureDecl
deriving Repr

structure Invariant where
  id : String
  text : String
deriving DecidableEq, Repr

structure NonGoal where
  id : String
  text : String
deriving DecidableEq, Repr

structure Intent where
  summary : String
  invariants : Option (List Invariant)
  nonGoals : Option (List NonGoal)
deriving DecidableEq, Repr

structure Assumption where
  id : String
  text : String
  status : String
deriving DecidableEq, Repr

structure Decision where
  id : String
  question : String
  answer : String
  rationale : String
  status : String
  confidence : ℚ
  evidence : Option (List String)
  parent : Option String
deriving DecidableEq, Repr

structure FuzzyReq where
  text : String
  threshold : Option ℚ
  gate : Option Bool
deriving DecidableEq, Repr

structure DocsSection where
  file : String
  heading : String
  mustContain : Option (List String)
  mustContainFuzzy : Option (List FuzzyReq)
deriving DecidableEq, Repr

structure Docs where
  requiredFiles : Option (List String)
  sections : Option (List DocsSection)
deriving DecidableEq, Repr

structure Effects where
  writeScopes : Option (List String)
  expansionPolicy : Option String
deriving DecidableEq, Repr

structure ArtifactReq where
  path : String
  role : Option String
  mustWrite : Option Bool
deriving DecidableEq, Repr

structure Artifacts where
  required : Option (List ArtifactReq)
deriving DecidableEq, Repr

structure Quality where
  gates : List String
deriving DecidableEq, Repr

structure Spec where
  lang : SpecLang
  target : String
  project : Project
  workspace : Option Workspace
  ui : Option UIDecl
  routes : Option (List RouteDecl)
  intent : Option Intent
  docs : Option Docs
  effects : Option Effects
  artifacts : Option Artifacts
  assumptions : Option (List Assumption)
  decisions : Option (List Decision)
  steps : Option (List StepDecl)
  quality : Option Quality
deriving Repr

/-- `StackMacroDef.args` value types. -/
inductive ArgType where
  | path
  | str
  | strArr
  | json
deriving DecidableEq, Repr

/-- A templated action inside `StackMacroDef.expandsTo`. -/
inductive MacroAction where
  | run (cmd : String) (cwd : Option String)
  | writeFile (path content : String)
  | appendFile (path content : String)
  | writeTemplate (path template : String) (vars : Option (List (String × String)))
deriving DecidableEq, Repr

structure MacroDef where
  args : List (String × ArgType)
  expandsTo : List MacroAction
deriving DecidableEq, Repr

structure EffectsPolicy where
  allowedWriteGlobs : List String
  deniedWriteGlobs : Option (List String)
deriving DecidableEq, Repr

structure Commands where
  allowPrefixes : List String
  denySubstrings : Option (List String)
deriving DecidableEq, Repr

/-- `StackManifest` after `StackManifestSchema.parse` (the `detect` and
`semantics` members are ignored by every compiled path under study and are
omitted). -/
structure Manifest where
  id : String
  presetVersion : Nat
  displayName : Option String
  effectsPolicy : EffectsPolicy
  commands : Commands
  macros : Option (List (String × MacroDef))
deriving DecidableEq, Repr

/-- Plan IR primitive operations. -/
inductive Op where
  | RUN (cmd : String) (cwd : Option String)
  | WRITE_FILE (path content : String)
  | APPEND_FILE (path content : String)
  | WRITE_TEMPLATE (path template : String) (vars : Option (List (String × String)))
deriving DecidableEq, Repr

/-- Plan IR primitive checks. -/
inductive Check where
  | fileExists (path : String)
  | fileContains (path text : String)
  | routeExists (route : String)
  | cmdOk (cmd : String)
  | gitTrackedOnly (glob : String) (allow : List String)
  | docSection (path heading : String)
  | docContains (path text : String)
  | docContainsFuzzy (path text : String) (threshold : ℚ) (gate : Option Bool)
  | artifactExists (path : String)
deriving DecidableEq, Repr

/-- A compiled plan step.  `claims`/`decisions` are `Option` because the
legacy synthesized steps and the trailing docs/artifacts step omit those
keys while user steps always carry them (possibly empty). -/
structure PStep where
  id : String
  requires : List String
  ops : List Op
  checks : List Check
  claims : Option (List String)
  decisions : Option (List String)
deriving DecidableEq, Repr

structure Plan where
  lang : String
  target : String
  presetVersion : Nat
  specHash : String
  steps : List PStep
deriving DecidableEq, Repr

structure CompileOutput where
  ok : Bool
  diagnostics : List Diag
  plan : Option Plan
deriving DecidableEq, Repr

/-- The compile entry point input.  `parse` is the outcome of
`YAML.parse` + `WebSpecSchema.parse` on `sourceText` (the compiler treats
the parsed document as opaque data afterwards), and each registry entry
holds the outcome of `StackManifestSchema.parse` on that raw entry. -/
structure CompileInput where
  sourceText : String
  parse : Except String Spec
  registry : List (String × Except String Manifest)
deriving Repr

/-! ## Compiler validators and builders
(`packages/compiler/src/index.ts`, in source order) -/

/-- `ensureStepHasProofs` (lines 36-47): a step with ops but no checks. -/
def ensureStepHasProofs (step : PStep) : List Diag :=
  if step.ops ≠ [] ∧ step.checks = [] then
    [diagE "E400_STEP_NO_ENSURES"
      ("Step \"" ++ step.id ++ "\" has actions but no ensures/checks.")
      (some "Add at least one ensure (file.exists, file.contains, cmd.ok, route.exists, git.trackedOnly, doc.*).")
      none]
  else []

/-- `step.claims` missing or empty (JS `!step.claims || step.claims.length === 0`). -/
def stepClaimsEmpty : Option (List String) → Bool
  | none => true
  | some [] => true
  | some (_ :: _) => false

/-- `ensureStepHasClaims` (lines 49-60). -/
def ensureStepHasClaims (step : PStep) : List Diag :=
  if step.ops ≠ [] ∧ stepClaimsEmpty step.claims then
    [diagE "E420_STEP_NO_CLAIMS"
      ("Step \"" ++ step.id ++ "\" has actions but no claims.")
      (some "Add claims referencing intent.invariants to keep the plan on track.")
      none]
  else []

/-- `inferAllowedWrite` (lines 62-66). -/
def inferAllowedWrite (manifest : Manifest) : List String × List String :=
  (manifest.effectsPolicy.allowedWriteGlobs, manifest.effectsPolicy.deniedWriteGlobs.getD [])

/-- `effectCheckPath` (lines 68-99): denied-glob check, then manifest
allow-globs, then (when the spec declares any `writeScopes` array, even an
empty one) the spec-level scopes. -/
def effectCheckPath (pm : String → String → Bool) (pathStr : String)
    (allowedStack : List String) (allowedSpec : Option (List String))
    (denied : List String) : Bool × List Diag :=
  if denied.any (fun g => pm pathStr g) then
    (false, [diagE "E301_DENIED_PATH" ("Write denied for path: " ++ pathStr)
      (some "Do not write .env files or denied globs.") none])
  else if ¬ allowedStack.any (fun g => pm pathStr g) then
    (false, [diagE "E300_WRITE_OUTSIDE" ("Write outside allowed globs: " ++ pathStr)
      (some ("Allowed globs: " ++ String.intercalate ", " allowedStack)) none])
  else
    match allowedSpec with
    | some scopes =>
      if scopes.any (fun g => pm pathStr g) then (true, [])
      else
        (false, [diagE "E302_SCOPE_VIOLATION" ("Write outside spec.writeScopes: " ++ pathStr)
          (some ("Spec writeScopes: " ++ String.intercalate ", " scopes)) none])
    | none => (true, [])

/-- `effectCheckCmd` (lines 101-116): leading token must be an allowed
prefix and no denied substring may occur (first offender reported). -/
def effectCheckCmd (cmd : String) (allowPrefixes denySubs : List String) : Bool × List Diag :=
  if ¬ allowPrefixes.contains (leadTokenJ cmd) then
    (false, [diagE "E310_CMD_NOT_ALLOWED" ("Command prefix not allowed: " ++ leadTokenJ cmd)
      (some ("Allowed: " ++ String.intercalate ", " allowPrefixes)) none])
  else
    match denySubs.find? (fun bad => inclJ cmd bad) with
    | some bad =>
      (false, [diagE "E311_CMD_DENIED_SUBSTRING"
        ("Command contains denied substring: \"" ++ bad ++ "\"") (some "Edit the plan.") none])
    | none => (true, [])

/-- `mapEnsureToCheck` (lines 118-139). -/
def mapEnsureToCheck : EnsureDecl → Option Check × List Diag
  | .exists_ p => (some (.fileExists p), [])
  | .contains p t => (some (.fileContains p t), [])
  | .routeExists r => (some (.routeExists r), [])
  | .cmdOk c => (some (.cmdOk c), [])
  | .trackedOnly g a => (some (.gitTrackedOnly g a), [])
  | .docSection p h => (some (.docSection p h), [])
  | .docContains p t => (some (.docContains p t), [])
  | .docContainsFuzzy p t th g => (some (.docContainsFuzzy p t (th.getD (Rat.divInt 4 5)) g), [])
  | .artifactExists p => (some (.artifactExists p), [])
  | .unknownEnsure =>
    (none, [diagE "E210_UNKNOWN_ENSURE" "Unknown ensure/check type."
      (some "Use a supported ensure type.") none])

/-- JS object assignment `vars[k] = v`: replace in place or append. -/
def setVar : List (String × JVal) → String → JVal → List (String × JVal)
  | [], k, v => [(k, v)]
  | (k0, v0) :: rest, k, v =>
    if k0 == k then (k0, v) :: rest else (k0, v0) :: setVar rest k v

/-- JS `key in args`. -/
def hasKey (args : List (String × JVal)) (k : String) : Bool :=
  args.any (fun p => p.1 == k)

/-- The loop of `normalizeMacroVars` (lines 141-153) over the declared
argument list: a missing argument yields `E201` and an empty-string
binding; a `json`-typed argument is `JSON.stringify`-ed. -/
def normVarsGo (args : List (String × JVal)) (vars : List (String × JVal)) :
    List (String × ArgType) → List (String × JVal) × List Diag
  | [] => (vars, [])
  | (key, typ) :: rest =>
    if ¬ hasKey args key then
      let (v, ds) := normVarsGo args (setVar vars key (.jstr "")) rest
      (v, diagE "E201_MISSING_MACRO_ARG" ("Missing macro arg: " ++ key)
        (some ("Provide \"" ++ key ++ "\" in macro args.")) none :: ds)
    else if typ = .json then
      normVarsGo args (setVar vars key (.jstr (stringify ((lookupVar args key).getD .jnull)))) rest
    else normVarsGo args vars rest

/-- `normalizeMacroVars`: start from a copy of the supplied args. -/
def normalizeMacroVars (args : List (String × JVal)) (macroDef : MacroDef) :
    List (String × JVal) × List Diag :=
  normVarsGo args args macroDef.args

/-- Macro lookup `manifest.macros?.[name]`. -/
def findMacro (manifest : Manifest) (name : String) : Option MacroDef :=
  ((manifest.macros.getD []).find? (fun p => p.1 == name)).map Prod.snd

/-- The `expandsTo` mapping inside `expandMacro` (lines 162-177): every
schema-legal action kind produces one op; `render` is applied to `cmd`,
`cwd`, `path`, `content`, and each `writeTemplate` var value, while the
template name itself is not rendered. -/
def expandActions (vars : List (String × JVal)) : List MacroAction → List Op
  | [] => []
  | .run cmd cwd :: rest =>
    .RUN (render cmd vars) (cwd.map (fun c => render c vars)) :: expandActions vars rest
  | .writeFile p c :: rest =>
    .WRITE_FILE (render p vars) (render c vars) :: expandActions vars rest
  | .appendFile p c :: rest =>
    .APPEND_FILE (render p vars) (render c vars) :: expandActions vars rest
  | .writeTemplate p t vs :: rest =>
    .WRITE_TEMPLATE (render p vars) t
      (vs.map (fun l => l.map (fun kv => (kv.1, render kv.2 vars)))) :: expandActions vars rest

/-- `expandMacro` (lines 155-178). -/
def expandMacro (name : String) (args : List (String × JVal)) (manifest : Manifest) :
    List Op × List Diag :=
  match findMacro manifest name with
  | none =>
    ([], [diagE "E200_UNKNOWN_MACRO" ("Unknown macro: " ++ name)
      (some "Define it in the stack manifest.") none])
  | some mac =>
    let (vars, ds) := normalizeMacroVars args mac
    (expandActions vars mac.expandsTo, ds)

/-- The `writeFile` fallback of `mapActionToOps` when no (truthy) template
is given: inline content or `E220`. -/
def writeFileContent (p : String) (content : Option String) : List Op × List Diag :=
  match content with
  | none =>
    ([], [diagE "E220_WRITEFILE_NO_CONTENT" ("writeFile missing content for path: " ++ p)
      (some "Provide content.") none])
  | some c => ([.WRITE_FILE p c], [])

/-- `mapActionToOps` (lines 180-207). -/
def mapActionToOps (action : ActionDecl) (manifest : Manifest) : List Op × List Diag :=
  match action with
  | .run cmd => ([.RUN cmd none], [])
  | .writeFile p content template vs =>
    (match template with
     | some t =>
       if t ≠ "" then ([.WRITE_TEMPLATE p t (some (vs.getD []))], [])
       else writeFileContent p content
     | none => writeFileContent p content)
  | .appendFile p c => ([.APPEND_FILE p c], [])
  | .writeTemplate p t vs => ([.WRITE_TEMPLATE p t (some (vs.getD []))], [])
  | .macroCall name args => expandMacro name (args.getD []) manifest
  | .unknownAction =>
    ([], [diagE "E211_UNKNOWN_ACTION" "Unknown action type."
      (some "Use run/writeFile/appendFile/writeTemplate/macro.") none])

/-- Ops of one step: concatenation over its actions. -/
def actionsToOps (manifest : Manifest) : List ActionDecl → List Op × List Diag
  | [] => ([], [])
  | a :: rest =>
    let (ops1, d1) := mapActionToOps a manifest
    let (ops2, d2) := actionsToOps manifest rest
    (ops1 ++ ops2, d1 ++ d2)

/-- Checks of one step: `.map(mapEnsureToCheck).filter(Boolean)`. -/
def ensuresToChecks : List EnsureDecl → List Check × List Diag
  | [] => ([], [])
  | e :: rest =>
    let (c1, d1) := mapEnsureToCheck e
    let (c2, d2) := ensuresToChecks rest
    ((match c1 with | some c => c :: c2 | none => c2), d1 ++ d2)

/-- The step loop of `buildStepsFromSpec` (lines 209-230). -/
def buildStepsGo (manifest : Manifest) : List StepDecl → List PStep × List Diag
  | [] => ([], [])
  | st :: rest =>
    let (ops, d1) := actionsToOps manifest st.actions
    let (checks, d2) := ensuresToChecks st.ensures
    let (steps, d3) := buildStepsGo manifest rest
    (⟨st.id, st.requires.getD [], ops, checks,
      some (st.claims.getD []), some (st.decisions.getD [])⟩ :: steps,
     d1 ++ d2 ++ d3)

/-- `buildStepsFromSpec`. -/
def buildStepsFromSpec (spec : Spec) (manifest : Manifest) : List PStep × List Diag :=
  buildStepsGo manifest (spec.steps.getD [])

/-- JS `Map.get` on the decision map (`set` overwrites, so the latest
binding for an id wins). -/
def lookupDecision (dmap : List (String × Decision)) (id : String) : Option Decision :=
  (dmap.find? (fun p => p.1 == id)).map Prod.snd

/-- JS `Map.set` keeping original insertion position. -/
def setDecision : List (String × Decision) → String → Decision → List (String × Decision)
  | [], k, d => [(k, d)]
  | (k0, d0) :: rest, k, d =>
    if k0 == k then (k0, d) :: rest else (k0, d0) :: setDecision rest k d

/-- First loop of `validateAssumptionsAndDecisions` (lines 234-240):
build the decision map, reporting duplicate ids. -/
def buildDecisionMapGo (m : List (String × Decision)) :
    List Decision → List (String × Decision) × List Diag
  | [] => (m, [])
  | d :: rest =>
    let dup :=
      if (lookupDecision m d.id).isSome then
        [diagE "E413_DECISION_DUPLICATE" ("Duplicate decision id: " ++ d.id)
          (some "Decision ids must be unique.") none]
      else []
    let (m2, ds) := buildDecisionMapGo (setDecision m d.id d) rest
    (m2, dup ++ ds)

/-- Second loop of `validateAssumptionsAndDecisions` (lines 242-270). -/
def validateAssumptionsGo (dmap : List (String × Decision)) : List Assumption → List Diag
  | [] => []
  | a :: rest =>
    let d1 :=
      if a.status ≠ "verified" then
        [diagE "E410_UNVERIFIED_ASSUMPTION"
          ("Assumption \"" ++ a.id ++ "\" is not verified: " ++ a.text)
          (some "Verify assumptions before compile.") none]
      else []
    let d2 :=
      match lookupDecision dmap a.id with
      | none =>
        [diagE "E411_ASSUMPTION_NO_DECISION"
          ("Assumption \"" ++ a.id ++ "\" has no matching decision record.")
          (some "Add a decision with the same id in decisions[].") none]
      | some d =>
        if d.status ≠ "final" then
          [diagE "E412_ASSUMPTION_DECISION_NOT_FINAL"
            ("Decision \"" ++ d.id ++ "\" for assumption is not final.")
            (some "Mark decision status as final.") none]
        else []
    d1 ++ d2 ++ validateAssumptionsGo dmap rest

/-- `validateAssumptionsAndDecisions` (lines 232-273). -/
def validateAssumptionsAndDecisions (spec : Spec) : List (String × Decision) × List Diag :=
  let (dmap, d1) := buildDecisionMapGo [] (spec.decisions.getD [])
  (dmap, d1 ++ validateAssumptionsGo dmap (spec.assumptions.getD []))

/-- Claims loop of one step (lines 296-308): an unknown claim yields
`E421`, a known one is added to the claimed set. -/
def claimsOfStep (invIds : List String) (stepId : String) (claimed : List String) :
    List String → List String × List Diag
  | [] => (claimed, [])
  | c :: cs =>
    if invIds.contains c then claimsOfStep invIds stepId (claimed ++ [c]) cs
    else
      let (cl, ds) := claimsOfStep invIds stepId claimed cs
      (cl, diagE "E421_UNKNOWN_CLAIM"
        ("Step \"" ++ stepId ++ "\" claims unknown invariant: " ++ c)
        (some "Claims must reference intent.invariants ids.") none :: ds)

/-- Per-step loop of `validateClaims` (lines 294-309). -/
def claimsSteps (invIds : List String) (claimed : List String) :
    List PStep → List String × List Diag
  | [] => (claimed, [])
  | s :: ss =>
    let d1 := ensureStepHasClaims s
    let (cl1, d2) := claimsOfStep invIds s.id claimed (s.claims.getD [])
    let (cl2, d3) := claimsSteps invIds cl1 ss
    (cl2, d1 ++ d2 ++ d3)

/-- `validateClaims` (lines 275-322). -/
def validateClaims (spec : Spec) (steps : List PStep) (userStepIds : List String) : List Diag :=
  let invariants := (spec.intent.bind Intent.invariants).getD []
  let invIds := dedupFirst (invariants.map Invariant.id)
  let userSteps := steps.filter (fun s => userStepIds.contains s.id)
  let anyUserOps := userSteps.any (fun s => ¬ s.ops.isEmpty)
  if spec.lang = .v02 ∧ anyUserOps ∧ invIds = [] then
    [diagE "E424_MISSING_INVARIANTS"
      "v0.2 specs with actions must declare intent.invariants."
      (some "Add intent.invariants and reference them from step claims.") none]
  else
    let (claimed, ds) := claimsSteps invIds [] userSteps
    ds ++ (invIds.filter (fun i => ¬ claimed.contains i)).map (fun inv =>
      diagE "E422_UNCLAIMED_INVARIANT"
        ("Invariant \"" ++ inv ++ "\" is not claimed by any step.")
        (some "Add claims to steps to cover all invariants.") none)

/-- Decision references of one step (lines 327-346). -/
def stepDecisionsGo (dmap : List (String × Decision)) (stepId : String) :
    List String → List Diag
  | [] => []
  | d :: rest =>
    (match lookupDecision dmap d with
     | none =>
       [diagE "E425_STEP_DECISION_MISSING"
         ("Step \"" ++ stepId ++ "\" references missing decision: " ++ d)
         (some "Add the decision to decisions[].") none]
     | some dec =>
       if dec.status ≠ "final" then
         [diagE "E426_STEP_DECISION_NOT_FINAL"
           ("Step \"" ++ stepId ++ "\" references a non-final decision: " ++ d)
           (some "Finalize the decision before compiling.") none]
       else []) ++ stepDecisionsGo dmap stepId rest

/-- `validateStepDecisions` (lines 324-348). -/
def validateStepDecisions (steps : List PStep) (userStepIds : List String)
    (dmap : List (String × Decision)) : List Diag :=
  steps.flatMap (fun s =>
    if userStepIds.contains s.id then stepDecisionsGo dmap s.id (s.decisions.getD [])
    else [])

/-- `appendDocsAndArtifactsChecks` (lines 350-386): derived checks from
docs/artifacts, appended as a trailing synthetic step when nonempty. -/
def appendDocsAndArtifactsChecks (spec : Spec) (steps : List PStep) : List PStep :=
  let fromFiles := ((spec.docs.bind Docs.requiredFiles).getD []).map Check.fileExists
  let fromSections := ((spec.docs.bind Docs.sections).getD []).flatMap (fun sec =>
    Check.docSection sec.file sec.heading ::
    ((sec.mustContain.getD []).map (Check.docContains sec.file) ++
     (sec.mustContainFuzzy.getD []).map (fun fz =>
       Check.docContainsFuzzy sec.file fz.text (fz.threshold.getD (Rat.divInt 4 5)) fz.gate)))
  let fromArtifacts := ((spec.artifacts.bind Artifacts.required).getD []).map
    (fun a => Check.artifactExists a.path)
  let checks := fromFiles ++ fromSections ++ fromArtifacts
  if checks = [] then steps
  else
    let req :=
      match steps.getLast? with
      | some s => if s.id = "" then [] else [s.id]
      | none => []
    steps ++ [⟨"verify_docs_artifacts", req, [], checks, none, none⟩]

/-- Write-target paths of an op. -/
def writePathOf : Op → Option String
  | .WRITE_FILE p _ => some p
  | .APPEND_FILE p _ => some p
  | .WRITE_TEMPLATE p _ _ => some p
  | .RUN _ _ => none

/-- `validateArtifactsWritten` (lines 388-413). -/
def validateArtifactsWritten (spec : Spec) (steps : List PStep) : List Diag :=
  let required := (spec.artifacts.bind Artifacts.required).getD []
  let mustWrite := required.filter (fun r => r.mustWrite.getD false)
  if mustWrite = [] then []
  else
    let written := steps.flatMap (fun s => s.ops.filterMap writePathOf)
    mustWrite.filterMap (fun a =>
      if written.contains a.path then none
      else some (diagE "E460_ARTIFACT_NOT_WRITTEN"
        ("Required artifact not written by plan: " ++ a.path)
        (some "Add an action that writes this artifact or remove mustWrite.") none))

/-! ## Legacy (v0.1) synthesized program (lines 483-626) -/

/-- The scaffold-macro expansion (lines 509-518).  Unlike `expandActions`,
a `writeTemplate` keeps its `vars` unrendered (`vars: a.vars ?? {}`). -/
def scaffoldExpand (vars : List (String × JVal)) : List MacroAction → List Op
  | [] => []
  | .run cmd cwd :: rest =>
    .RUN (render cmd vars) (cwd.map (fun c => render c vars)) :: scaffoldExpand vars rest
  | .writeFile p c :: rest =>
    .WRITE_FILE (render p vars) (render c vars) :: scaffoldExpand vars rest
  | .appendFile p c :: rest =>
    .APPEND_FILE (render p vars) (render c vars) :: scaffoldExpand vars rest
  | .writeTemplate p t vs :: rest =>
    .WRITE_TEMPLATE (render p vars) t (some (vs.getD [])) :: scaffoldExpand vars rest

/-- The `tailwind_v4_vite` expansion (lines 536-546): only `run` and
`writeFile` actions survive the `.filter(Boolean)`, the `run` op carries no
`cwd` and the `writeFile` content is not rendered. -/
def twExpand (vars : List (String × JVal)) : List MacroAction → List Op
  | [] => []
  | .run cmd _ :: rest => .RUN (render cmd vars) none :: twExpand vars rest
  | .writeFile p c :: rest => .WRITE_FILE (render p vars) c :: twExpand vars rest
  | _ :: rest => twExpand vars rest

/-- The `shadcn_init`/`shadcn_add` expansions (lines 547-548) map every
action to `RUN render(a.cmd, vars)`.  A non-`run` action has no `cmd`
member, so `render` receives `undefined` and `String.prototype.replace`
throws a `TypeError` that propagates out of `compileWebSpec`. -/
def mapRunOnly (vars : List (String × JVal)) : List MacroAction → Except String (List Op)
  | [] => .ok []
  | .run cmd _ :: rest =>
    (mapRunOnly vars rest).map (fun ops => .RUN (render cmd vars) none :: ops)
  | _ :: _ => .error "TypeError: Cannot read properties of undefined (reading replace)"

/-- The `set_routes` expansion (lines 562-576). -/
def setRoutesExpand (routesJson : String) : List MacroAction → List Op
  | [] => []
  | .writeTemplate p t _ :: rest =>
    .WRITE_TEMPLATE (render p [("app", .jstr "apps/web")]) t
      (some [("ROUTES_JSON", routesJson)]) :: setRoutesExpand routesJson rest
  | .run cmd _ :: rest =>
    .RUN (render cmd [("app", .jstr "apps/web"), ("routes", .jstr routesJson)]) none ::
      setRoutesExpand routesJson rest
  | _ :: rest => setRoutesExpand routesJson rest

/-- The `add_route` expansion for one route (lines 587-598): only
`writeTemplate` actions produce ops. -/
def addRouteExpand (dir page : String) : List MacroAction → List Op
  | [] => []
  | .writeTemplate p t _ :: rest =>
    .WRITE_TEMPLATE (render p [("app", .jstr "apps/web"), ("ROUTE_DIR", .jstr dir)]) t
      (some [("PAGE", page)]) :: addRouteExpand dir page rest
  | _ :: rest => addRouteExpand dir page rest

/-- `JSON.stringify(spec.routes)`: Zod rebuilds each route object in
schema key order (`path`, `page`). -/
def routesToJson (routes : List RouteDecl) : String :=
  stringify (.jarr (routes.map (fun r => .jobj [("path", .jstr r.path), ("page", .jstr r.page)])))

/-- The legacy program synthesis (the `else` branch, lines 483-626):
`init_ai`, then `scaffold_web` (or `E102`), an optional `setup_ui`, an
optional routing step, an optional `quality_gate`. -/
def buildLegacySteps (spec : Spec) (manifest : Manifest) :
    Except String (List PStep × List Diag) := do
  let aiDir := (spec.workspace.map Workspace.aiDir).getD ".ai"
  let keep := (spec.workspace.map Workspace.keepTracked).getD
    [aiDir ++ "/README.md", aiDir ++ "/.gitkeep"]
  let initStep : PStep :=
    ⟨"init_ai", [],
     [.WRITE_FILE (aiDir ++ "/README.md") "# .ai\\nAgent workspace.\\n",
      .WRITE_FILE (aiDir ++ "/.gitkeep") "",
      .APPEND_FILE ".gitignore"
        (aiDir ++ "/*\\n!" ++ aiDir ++ "/README.md\\n!" ++ aiDir ++ "/.gitkeep\\n")],
     [.fileExists (aiDir ++ "/README.md"),
      .gitTrackedOnly (aiDir ++ "/**") keep],
     none, none⟩
  let (scaffoldSteps, dScaffold) :=
    match findMacro manifest "stack.scaffold" with
    | none =>
      (([] : List PStep),
       [diagE "E102_MISSING_MACRO"
         ("Target \"" ++ manifest.id ++ "\" missing macro \"stack.scaffold\"")
         (some "Add it to stacks/*/manifest.json.") none])
    | some mac =>
      ([⟨"scaffold_web", ["init_ai"],
         scaffoldExpand [("app", .jstr "apps/web")] mac.expandsTo,
         [.fileExists "apps/web/package.json"], none, none⟩], [])
  let uiComps := ((spec.ui.bind UIDecl.shadcn).map ShadcnUI.components).getD []
  let uiVars : List (String × JVal) :=
    [("app", .jstr "apps/web"), ("components", .jarr (uiComps.map JVal.jstr))]
  let twOps :=
    match findMacro manifest "stack.tailwind_v4_vite" with
    | some mac => twExpand uiVars mac.expandsTo
    | none => []
  let initOps ←
    match findMacro manifest "stack.shadcn_init" with
    | some mac => mapRunOnly uiVars mac.expandsTo
    | none => .ok []
  let addOps ←
    match findMacro manifest "stack.shadcn_add" with
    | some mac => if uiComps ≠ [] then mapRunOnly uiVars mac.expandsTo else .ok []
    | none => .ok []
  let uiOps := twOps ++ initOps ++ addOps
  let uiSteps : List PStep :=
    if uiOps ≠ [] then
      [⟨"setup_ui", ["scaffold_web"], uiOps,
        [.cmdOk "pnpm -C apps/web --version"], none, none⟩]
    else []
  let routes := spec.routes.getD []
  let (routeSteps, dRoutes) :=
    if routes ≠ [] then
      match findMacro manifest "stack.set_routes" with
      | some mac =>
        ([(⟨"set_routes", if uiOps ≠ [] then ["setup_ui"] else ["scaffold_web"],
            setRoutesExpand (routesToJson routes) mac.expandsTo,
            routes.map (fun r => .routeExists r.path), none, none⟩ : PStep)], ([] : List Diag))
      | none =>
        match findMacro manifest "stack.add_route" with
        | some mac =>
          ([(⟨"add_routes", if uiOps ≠ [] then ["setup_ui"] else ["scaffold_web"],
              routes.flatMap (fun r =>
                addRouteExpand (if r.path = "/" then "" else r.path) r.page mac.expandsTo),
              routes.map (fun r => .routeExists r.path), none, none⟩ : PStep)], ([] : List Diag))
        | none =>
          (([] : List PStep),
           [diagE "E102_MISSING_MACRO"
             ("Target \"" ++ manifest.id ++
              "\" has no routing macro (stack.set_routes or stack.add_route).")
             (some "Add a routing macro to the stack manifest.") none])
    else ([], [])
  let steps0 := initStep :: scaffoldSteps ++ uiSteps ++ routeSteps
  let gates := (spec.quality.map Quality.gates).getD []
  let qSteps : List PStep :=
    if gates ≠ [] then
      [⟨"quality_gate",
        [(match steps0.getLast? with | some s => s.id | none => "scaffold_web")],
        gates.map (fun c => .RUN c none),
        gates.map (fun c => .cmdOk c), none, none⟩]
    else []
  .ok (steps0 ++ qSteps, dScaffold ++ dRoutes)

/-! ## The compile pipeline (lines 419-662) -/

/-- Error-severity diagnostics count (the final gate filter, line 650). -/
def countErrors (l : List Diag) : Nat :=
  (l.filter (fun d => match d.severity with | .error => true | _ => false)).length

/-- Registry lookup `input.registry[spec.target]`. -/
def lookupRegistry (registry : List (String × Except String Manifest)) (target : String) :
    Option (Except String Manifest) :=
  (registry.find? (fun p => p.1 == target)).map Prod.snd

/-- Diagnostics produced by the static effect check of one op (lines
639-646): write-producing ops go through `effectCheckPath`, `RUN` ops
through `effectCheckCmd`; the returned booleans are discarded. -/
def effectOpDiags (pm : String → String → Bool) (allowedStack : List String)
    (specAllowed : Option (List String)) (denied allowPrefixes denySubs : List String) :
    Op → List Diag
  | .WRITE_FILE p _ => (effectCheckPath pm p allowedStack specAllowed denied).2
  | .APPEND_FILE p _ => (effectCheckPath pm p allowedStack specAllowed denied).2
  | .WRITE_TEMPLATE p _ _ => (effectCheckPath pm p allowedStack specAllowed denied).2
  | .RUN cmd _ => (effectCheckCmd cmd allowPrefixes denySubs).2

/-- The final static loop (lines 638-648): per step, effect checks on
every op, then the proof obligation. -/
def effectLoop (pm : String → String → Bool) (allowedStack : List String)
    (specAllowed : Option (List String)) (denied allowPrefixes denySubs : List String) :
    List PStep → List Diag
  | [] => []
  | s :: ss =>
    s.ops.flatMap (effectOpDiags pm allowedStack specAllowed denied allowPrefixes denySubs) ++
    ensureStepHasProofs s ++
    effectLoop pm allowedStack specAllowed denied allowPrefixes denySubs ss

/-- The step-construction stage (lines 470-626): user-authored steps, or
the v0.2 missing-steps error, or the legacy synthesized program. -/
def compileStepsStage (spec : Spec) (manifest : Manifest) :
    Except String (List PStep × List Diag) :=
  if !(spec.steps.getD []).isEmpty then .ok (buildStepsFromSpec spec manifest)
  else if spec.lang = .v02 then
    .ok ([], [diagE "E902_STEPS_REQUIRED" "v0.2 specs require explicit steps."
      (some "Add steps with actions/ensures/claims to keep the agent on track.") none])
  else buildLegacySteps spec manifest

/-- The diagnostics accumulated by the compile body (lines 448-648), in
push order: the `E320` check, assumption/decision validation, the
step-construction diagnostics, claim and step-decision validation (only
for user-authored steps), required-artifact coverage, and the final
effect/proof loop over the full step list. -/
def compileDiagnostics (pm : String → String → Bool) (spec : Spec) (manifest : Manifest)
    (steps0 : List PStep) (dBuild : List Diag) : List Diag :=
  let allowedStack := (inferAllowedWrite manifest).1
  let denied := (inferAllowedWrite manifest).2
  let allowPrefixes := manifest.commands.allowPrefixes
  let denySubs := manifest.commands.denySubstrings.getD []
  let specAllowed := spec.effects.bind Effects.writeScopes
  let d320 :=
    if (spec.effects.bind Effects.expansionPolicy) = some "explicit" ∧
       (specAllowed = none ∨ specAllowed = some []) then
      [diagE "E320_EFFECTS_SCOPE_REQUIRED"
        "effects.expansionPolicy is explicit but no writeScopes provided."
        (some "Provide effects.writeScopes or change expansionPolicy.") none]
    else []
  let (dmap, dAssume) := validateAssumptionsAndDecisions spec
  let hasCustomSteps := !(spec.steps.getD []).isEmpty
  let userStepIds := (spec.steps.getD []).map StepDecl.id
  let dClaims :=
    if hasCustomSteps then
      validateClaims spec steps0 userStepIds ++ validateStepDecisions steps0 userStepIds dmap
    else []
  let steps1 := appendDocsAndArtifactsChecks spec steps0
  let dArt := validateArtifactsWritten spec steps1
  let dEff := effectLoop pm allowedStack specAllowed denied allowPrefixes denySubs steps1
  d320 ++ dAssume ++ dBuild ++ dClaims ++ dArt ++ dEff

/-- The final gate (lines 650-661): a plan exactly when no diagnostic has
error severity. -/
def finishCompile (diagnostics : List Diag) (manifest : Manifest) (sourceText : String)
    (steps1 : List PStep) : CompileOutput :=
  if countErrors diagnostics = 0 then
    ⟨true, diagnostics,
     some ⟨"webspec/plan-v0.1", manifest.id, manifest.presetVersion,
           sha256Hex sourceText, steps1⟩⟩
  else ⟨false, diagnostics, none⟩

/-- The compile body after parse and manifest validation (lines 448-661). -/
def compileCore (pm : String → String → Bool) (spec : Spec) (manifest : Manifest)
    (sourceText : String) : Except String CompileOutput :=
  match compileStepsStage spec manifest with
  | .error e => .error e
  | .ok (steps0, dBuild) =>
    .ok (finishCompile (compileDiagnostics pm spec manifest steps0 dBuild)
      manifest sourceText (appendDocsAndArtifactsChecks spec steps0))

/-- `compileWebSpec` (lines 419-662).  The `.error` case of the result
models a thrown `TypeError` (reachable only through the legacy UI-macro
expansions); `.ok` is a normal return. -/
def compileWebSpec (pm : String → String → Bool) (input : CompileInput) :
    Except String CompileOutput :=
  match input.parse with
  | .error e =>
    .ok ⟨false, [diagE "E001_PARSE" ("Spec parse/validate failed: " ++ e) none none], none⟩
  | .ok spec =>
    match lookupRegistry input.registry spec.target with
    | none =>
      .ok ⟨false, [diagE "E100_UNKNOWN_TARGET" ("Unknown target: " ++ spec.target)
        (some "Choose a supported target from the registry.") none], none⟩
    | some (.error e) =>
      .ok ⟨false, [diagE "E101_BAD_MANIFEST" ("Invalid stack manifest: " ++ e) none none], none⟩
    | some (.ok manifest) => compileCore pm spec manifest input.sourceText

/-! ## Decision tree builder (`packages/shared/src/decisions.ts`)

Thrown `Error`s become `Except.error` carrying the message.  The
depth-first traversal is written with explicit fuel; `buildDecisionTree`
supplies `decisions.length + 1`, which the in-progress check makes
sufficient (a path of distinct untraversed nodes cannot be longer than the
node count, and a repeated node errors on entry without recursing). -/

structure TreeNode where
  d : Decision
  parent : Option String
  children : List String
deriving DecidableEq, Repr

structure DecisionTree where
  nodes : List (String × TreeNode)
  roots : List String
  byId : List (String × (Option String × List String))
deriving DecidableEq, Repr

/-- `nodes[id]` lookup. -/
def dtLookup (m : List (String × TreeNode)) (id : String) : Option TreeNode :=
  (m.find? (fun kv => kv.1 == id)).map Prod.snd

/-- First loop (lines 6-9): insert nodes, throwing on a duplicate id. -/
def dtInsertNodes (m : List (String × TreeNode)) :
    List Decision → Except String (List (String × TreeNode))
  | [] => .ok m
  | d :: rest =>
    if (dtLookup m d.id).isSome then .error ("Duplicate decision id: " ++ d.id)
    else dtInsertNodes (m ++ [(d.id, ⟨d, d.parent, []⟩)]) rest

/-- JS truthiness of the normalized `parent` field (`""` counts as no
parent, like `null`). -/
def parentTruthy : Option String → Bool
  | some p => p != ""
  | none => false

/-- Append `cid` to the children of `pid`. -/
def dtPushChild (m : List (String × TreeNode)) (pid cid : String) :
    List (String × TreeNode) :=
  m.map (fun kv =>
    if kv.1 == pid then (kv.1, { kv.2 with children := kv.2.children ++ [cid] }) else kv)

/-- Second loop (lines 11-18): resolve parents into child lists, throwing
on a missing parent. -/
def dtLink (m : List (String × TreeNode)) :
    List (String × TreeNode) → Except String (List (String × TreeNode))
  | [] => .ok m
  | (id, node) :: rest =>
    if parentTruthy node.parent then
      let p := node.parent.getD ""
      if (dtLookup m p).isSome then dtLink (dtPushChild m p id) rest
      else .error ("Decision \"" ++ id ++ "\" references missing parent: " ++ p)
    else dtLink m rest

/-- The depth-first traversal of lines 24-37, defunctionalized: a stack
frame holds the node still to close (`none` for the synthetic root frame)
and its unvisited children.  Each machine step consumes one fuel unit;
`buildDecisionTree` supplies a generous quadratic budget, which the
in-progress check makes sufficient (every frame push requires a node that
is neither visited nor in progress).  Processing a child performs exactly
the entry checks of `visit(id)`; closing a frame performs
`visiting.delete(id); visited.add(id)`. -/
def dtMachine (m : List (String × TreeNode)) :
    Nat → List (Option String × List String) → List String → List String →
    Except String (List String × List String)
  | 0, _, _, _ => .error "RangeError: Maximum call stack size exceeded"
  | _ + 1, [], visiting, visited => .ok (visiting, visited)
  | fuel + 1, (none, []) :: st, visiting, visited => dtMachine m fuel st visiting visited
  | fuel + 1, (some id, []) :: st, visiting, visited =>
    dtMachine m fuel st (visiting.filter (fun x => x != id)) (visited ++ [id])
  | fuel + 1, (fid, c :: cs) :: st, visiting, visited =>
    if visited.contains c then dtMachine m fuel ((fid, cs) :: st) visiting visited
    else if visiting.contains c then .error ("Decision tree cycle detected at: " ++ c)
    else
      dtMachine m fuel
        ((some c, ((dtLookup m c).map TreeNode.children).getD []) :: (fid, cs) :: st)
        (visiting ++ [c]) visited

/-- `for (const root of roots) visit(root)` (line 37): one synthetic frame
whose children are the roots. -/
def dtVisitRoots (m : List (String × TreeNode)) (fuel : Nat) (roots : List String) :
    Except String (List String × List String) :=
  dtMachine m fuel [(none, roots)] [] []

/-- `buildDecisionTree` (lines 3-45). -/
def buildDecisionTree (decisions : List Decision) : Except String DecisionTree := do
  let inserted ← dtInsertNodes [] decisions
  let nodes ← dtLink inserted inserted
  let roots := (nodes.filter (fun kv => ¬ parentTruthy kv.2.parent)).map Prod.fst
  let _ ← dtVisitRoots nodes ((decisions.length + 2) * (decisions.length + 2)) roots
  .ok ⟨nodes, roots, nodes.map (fun kv => (kv.1, (kv.2.parent, kv.2.children)))⟩

/-! ## Runtime (`packages/runtime/src/index.ts`)

The executor is IO code; its op loop is embedded as a pure trace
semantics.  `tmpl` stands for the external template loader, `cmdRes` for
the success of a spawned command, and an applied operation is recorded as
an `FsEffect`.  Thrown errors become `Except.error`. -/

/-- `isAllowedPath` (lines 17-20): the runtime re-check consults only the
manifest-level allow/deny globs. -/
def isAllowedPath (pm : String → String → Bool) (p : String)
    (allowed denied : List String) : Bool :=
  if denied.any (fun g => pm p g) then false
  else allowed.any (fun g => pm p g)

/-- A filesystem/command effect the executor would have performed. -/
inductive FsEffect where
  | wroteFile (path content : String)
  | appendedFile (path content : String)
  | wroteTemplate (path rendered : String)
  | ran (cmd : String)
deriving DecidableEq, Repr

/-- `{{name}}` substitution on loaded template text (line 189), with the
same fuel discipline as `renderDotsF`.  A failed match after `{{` emits
one `\x7b` and rescans from the second, where a fresh match may begin
(`{{{a}}`-style inputs). -/
def mustacheGoF (vars : List (String × String)) : Nat → List Char → List Char
  | 0, l => l
  | fuel + 1, '\x7b' :: '\x7b' :: rest =>
    let name := rest.takeWhile isWordChar
    let after := rest.dropWhile isWordChar
    if name ≠ [] && startsWithL after ['\x7d', '\x7d'] then
      (((vars.find? (fun p => p.1 == String.mk name)).map Prod.snd).getD "").data ++
        mustacheGoF vars fuel (after.drop 2)
    else '\x7b' :: mustacheGoF vars fuel ('\x7b' :: rest)
  | fuel + 1, c :: cs => c :: mustacheGoF vars fuel cs
  | _, [] => []

def mustacheRender (templateText : String) (vars : List (String × String)) : String :=
  String.mk (mustacheGoF vars templateText.data.length templateText.data)

/-- The inline `RUN` policy re-check of the executor (lines 193-195): the
message of the error it would throw, or `none` when the command passes
(leading token an allowed prefix, no denied substring present). -/
def runCmdPolicyErr (cmd : String) (allowPrefixes denySubs : List String) : Option String :=
  if ¬ allowPrefixes.contains (leadTokenJ cmd) then
    some ("Command not allowed: " ++ leadTokenJ cmd)
  else
    match denySubs.find? (fun bad => inclJ cmd bad) with
    | some bad => some ("Command denied substring \"" ++ bad ++ "\": " ++ cmd)
    | none => none

/-- One op of the executor loop (lines 172-199): the policy re-check comes
first in every branch, so a rejected op throws before its effect. -/
def applyOp (pm : String → String → Bool) (tmpl : String → Except String String)
    (cmdRes : String → Bool) (allowed denied allowPrefixes denySubs : List String) :
    Op → Except String FsEffect
  | .WRITE_FILE p c =>
    if ¬ isAllowedPath pm p allowed denied then .error ("Write outside allowed globs: " ++ p)
    else .ok (.wroteFile p c)
  | .APPEND_FILE p c =>
    if ¬ isAllowedPath pm p allowed denied then .error ("Write outside allowed globs: " ++ p)
    else .ok (.appendedFile p c)
  | .WRITE_TEMPLATE p t vs =>
    if ¬ isAllowedPath pm p allowed denied then .error ("Write outside allowed globs: " ++ p)
    else
      match tmpl t with
      | .error e => .error e
      | .ok text => .ok (.wroteTemplate p (mustacheRender text (vs.getD [])))
  | .RUN cmd _ =>
    match runCmdPolicyErr cmd allowPrefixes denySubs with
    | some e => .error e
    | none => if cmdRes cmd then .ok (.ran cmd) else .error ("Command failed: " ++ cmd)

/-- The op loop of one step: effects in order up to the first thrown
error, which aborts the remainder. -/
def runOps (pm : String → String → Bool) (tmpl : String → Except String String)
    (cmdRes : String → Bool) (allowed denied allowPrefixes denySubs : List String) :
    List Op → List FsEffect × Option String
  | [] => ([], none)
  | op :: rest =>
    match applyOp pm tmpl cmdRes allowed denied allowPrefixes denySubs op with
    | .error e => ([], some e)
    | .ok eff =>
      let (effs, err) := runOps pm tmpl cmdRes allowed denied allowPrefixes denySubs rest
      (eff :: effs, err)

/-- Outcome classification of `checkDocContainsFuzzy` (lines 145-156). -/
inductive FuzzyOutcome where
  | passed
  | warned
  | failed
deriving DecidableEq, Repr

/-- `checkDocContainsFuzzy`: below-threshold scores fail unless the check
is explicitly non-gating (`gate === false`), which only warns.  The
JS default parameter `gate = true` replaces only a missing argument. -/
def checkDocContainsFuzzy (content text : String) (threshold : ℚ)
    (gate : Option Bool) : FuzzyOutcome :=
  let score := fuzzyScore content text
  if score < threshold then
    if gate = some false then .warned else .failed
  else .passed

/-! ## Concrete instances

Closed inputs for witnesses and counterexamples.  `pmLit` is a concrete
glob matcher standing in for `picomatch.isMatch`: `**` matches every path
and any other pattern matches only itself, which agrees with picomatch on
every pattern/path pair used below. -/

def pmLit : String → String → Bool := fun p g => g == "**" || p == g

/-- A permissive one-macro manifest. -/
def manifestStar : Manifest :=
  ⟨"stack-x", 1, none, ⟨["**"], none⟩, ⟨["pnpm", "git", "node"], none⟩,
   some [("stack.scaffold", ⟨[], []⟩)]⟩

/-- A well-formed v0.2 spec: one invariant, one claiming step with one
write action and one ensure. -/
def specV2ok : Spec :=
  ⟨.v02, "stack-x", ⟨"demo", none, none⟩, none, none, none,
   some ⟨"sum", some [⟨"INV-01", "inv text"⟩], none⟩, none, none, none, none, none,
   some [⟨"s1", none, some ["INV-01"], none,
     [.writeFile "a.txt" (some "hi") none none], [.exists_ "a.txt"]⟩], none⟩

def inputV2ok : CompileInput := ⟨"demo-src", .ok specV2ok, [("stack-x", .ok manifestStar)]⟩

/-- The plan `inputV2ok` compiles to. -/
def planV2ok : Plan :=
  ⟨"webspec/plan-v0.1", "stack-x", 1, sha256Hex "demo-src",
   [⟨"s1", [], [.WRITE_FILE "a.txt" "hi"], [.fileExists "a.txt"],
     some ["INV-01"], some []⟩]⟩

def outV2ok : CompileOutput := ⟨true, [], some planV2ok⟩

/-- A manifest whose `stack.shadcn_init` macro holds a `writeFile` action:
the legacy UI expansion then evaluates `render(a.cmd, vars)` on an
`undefined` member. -/
def manifestCrash : Manifest :=
  ⟨"stack-y", 1, none, ⟨["**"], none⟩, ⟨["pnpm"], none⟩,
   some [("stack.scaffold", ⟨[], []⟩), ("stack.shadcn_init", ⟨[], [.writeFile "x" "y"]⟩)]⟩

/-- A minimal legacy (v0.1) spec. -/
def specV1min : Spec :=
  ⟨.v01, "stack-y", ⟨"demo", none, none⟩, none, none, none, none, none, none, none,
   none, none, none, none⟩

def inputCrash : CompileInput := ⟨"s", .ok specV1min, [("stack-y", .ok manifestCrash)]⟩

/-- The same spec against an empty registry: unknown target. -/
def inputUnknown : CompileInput := ⟨"s", .ok specV1min, []⟩

def outUnknown : CompileOutput :=
  ⟨false, [diagE "E100_UNKNOWN_TARGET" "Unknown target: stack-y"
    (some "Choose a supported target from the registry.") none], none⟩

/-- Allowed globs never matching `.env`, denied glob matching it. -/
def manifestDeny : Manifest :=
  ⟨"stack-z", 1, none, ⟨["apps/x"], some [".env"]⟩, ⟨["pnpm"], none⟩, some []⟩

/-- A v0.2 spec writing `.env`: outside every allowed glob and inside a
denied one. -/
def specDeny : Spec :=
  ⟨.v02, "stack-z", ⟨"demo", none, none⟩, none, none, none,
   some ⟨"sum", some [⟨"INV-01", "t"⟩], none⟩, none, none, none, none, none,
   some [⟨"w", none, some ["INV-01"], none,
     [.writeFile ".env" (some "secret") none none], [.exists_ ".env"]⟩], none⟩

def inputDeny : CompileInput := ⟨"s", .ok specDeny, [("stack-z", .ok manifestDeny)]⟩

def outDeny : CompileOutput :=
  ⟨false, [diagE "E301_DENIED_PATH" "Write denied for path: .env"
    (some "Do not write .env files or denied globs.") none], none⟩

/-- Permissive allowed globs with a denied `.env` glob (for the
empty-writeScopes scenarios). -/
def manifestScopes : Manifest :=
  ⟨"stack-w", 1, none, ⟨["**"], some [".env"]⟩, ⟨["pnpm"], none⟩, some []⟩

/-- v0.2, `effects.writeScopes: []`, no expansion policy, write to a
denied path. -/
def specScopesDenied : Spec :=
  ⟨.v02, "stack-w", ⟨"demo", none, none⟩, none, none, none,
   some ⟨"sum", some [⟨"INV-01", "t"⟩], none⟩, none, some ⟨some [], none⟩, none, none, none,
   some [⟨"w", none, some ["INV-01"], none,
     [.writeFile ".env" (some "x") none none], [.exists_ ".env"]⟩], none⟩

def inputScopesDenied : CompileInput :=
  ⟨"s", .ok specScopesDenied, [("stack-w", .ok manifestScopes)]⟩

def outScopesDenied : CompileOutput :=
  ⟨false, [diagE "E301_DENIED_PATH" "Write denied for path: .env"
    (some "Do not write .env files or denied globs.") none], none⟩

/-- v0.2, `effects.writeScopes: []`, no expansion policy, write to an
allowed un-denied path. -/
def specScopesClean : Spec :=
  ⟨.v02, "stack-w", ⟨"demo", none, none⟩, none, none, none,
   some ⟨"sum", some [⟨"INV-01", "t"⟩], none⟩, none, some ⟨some [], none⟩, none, none, none,
   some [⟨"w", none, some ["INV-01"], none,
     [.writeFile "a.txt" (some "x") none none], [.exists_ "a.txt"]⟩], none⟩

def inputScopesClean : CompileInput :=
  ⟨"s", .ok specScopesClean, [("stack-w", .ok manifestScopes)]⟩

def outScopesClean : CompileOutput :=
  ⟨false, [diagE "E302_SCOPE_VIOLATION" "Write outside spec.writeScopes: a.txt"
    (some "Spec writeScopes: ") none], none⟩

/-- Two decisions whose parent references form a two-cycle. -/
def cycA : Decision := ⟨"A", "q", "a", "r", "final", 1, none, some "B"⟩

def cycB : Decision := ⟨"B", "q", "a", "r", "final", 1, none, some "A"⟩

/-- A two-argument macro (one plain string, one json) for the expander
contract. -/
def mdefC9 : MacroDef := ⟨[("a", .str), ("j", .json)], [.run "echo" none]⟩

def manifestC9 : Manifest :=
  ⟨"stack-m", 1, none, ⟨["**"], none⟩, ⟨["pnpm"], none⟩, some [("m", mdefC9)]⟩

end WebSpec

namespace WebSpec

/-! ## Helper lemmas -/

theorem mem_dedupGo (x : String) : ∀ (l seen : List String),
    x ∈ dedupGo seen l ↔ (x ∈ l ∧ x ∉ seen)
  | [], seen => by simp [dedupGo]
  | a :: xs, seen => by
    by_cases h : seen.contains a
    · rw [dedupGo]
      simp only [h, if_pos]
      rw [mem_dedupGo x xs seen]
      have ha : a ∈ seen := by simpa using h
      constructor
      · exact fun ⟨h1, h2⟩ => ⟨List.mem_cons_of_mem _ h1, h2⟩
      · rintro ⟨h1, h2⟩
        rcases List.mem_cons.mp h1 with rfl | h1
        · exact absurd ha h2
        · exact ⟨h1, h2⟩
    · rw [dedupGo]
      simp only [h, if_neg, Bool.false_eq_true, not_false_iff]
      rw [List.mem_cons, mem_dedupGo x xs (seen ++ [a])]
      have hna : a ∉ seen := by simpa using h
      constructor
      · rintro (rfl | ⟨h1, h2⟩)
        · exact ⟨List.mem_cons_self _ _, hna⟩
        · simp only [List.mem_append, List.mem_singleton] at h2
          push_neg at h2
          exact ⟨List.mem_cons_of_mem _ h1, h2.1⟩
      · rintro ⟨h1, h2⟩
        rcases List.mem_cons.mp h1 with rfl | h1
        · exact Or.inl rfl
        · by_cases hxa : x = a
          · exact Or.inl hxa
          · refine Or.inr ⟨h1, ?_⟩
            simp [List.mem_append, h2, hxa]

theorem nodup_dedupGo : ∀ (l seen : List String), (dedupGo seen l).Nodup
  | [], seen => by simp [dedupGo]
  | a :: xs, seen => by
    by_cases h : seen.contains a
    · rw [dedupGo]
      simp only [h, if_pos]
      exact nodup_dedupGo xs seen
    · rw [dedupGo]
      simp only [h, if_neg, Bool.false_eq_true, not_false_iff]
      refine List.Nodup.cons ?_ (nodup_dedupGo xs (seen ++ [a]))
      intro hmem
      rcases (mem_dedupGo a xs (seen ++ [a])).mp hmem with ⟨_, h2⟩
      simp at h2

theorem mem_dedupFirst (x : String) (l : List String) : x ∈ dedupFirst l ↔ x ∈ l := by
  rw [dedupFirst, mem_dedupGo]
  simp

theorem nodup_dedupFirst (l : List String) : (dedupFirst l).Nodup :=
  nodup_dedupGo l []

/-- Token Jaccard similarity never exceeds 1. -/
theorem jaccardQ_le_one (a b : List String) : jaccardQ a b ≤ 1 := by
  rw [jaccardQ]
  split
  · exact le_refl 1
  · rename_i hne
    have hsub : (dedupFirst a).filter (fun t => (dedupFirst b).contains t) ⊆
        dedupFirst (dedupFirst a ++ dedupFirst b) := by
      intro x hx
      have hx1 := List.mem_of_mem_filter hx
      rw [mem_dedupFirst]
      exact List.mem_append_left _ hx1
    have hnd : ((dedupFirst a).filter (fun t => (dedupFirst b).contains t)).Nodup :=
      (nodup_dedupFirst a).filter _
    have hlen := (List.subperm_of_subset hnd hsub).length_le
    have hpos : (0 : Int) <
        ((dedupFirst (dedupFirst a ++ dedupFirst b)).length : Int) := by
      exact_mod_cast Nat.pos_of_ne_zero hne
    calc Rat.divInt ((dedupFirst a).filter (fun t => (dedupFirst b).contains t)).length
          (dedupFirst (dedupFirst a ++ dedupFirst b)).length
        ≤ Rat.divInt (dedupFirst (dedupFirst a ++ dedupFirst b)).length
          (dedupFirst (dedupFirst a ++ dedupFirst b)).length := by
          rw [Rat.divInt_le_divInt hpos hpos]
          exact mul_le_mul_of_nonneg_right (by exact_mod_cast hlen) (le_of_lt hpos)
      _ = 1 := Rat.divInt_self' (by positivity)

/-- Greedy multiset intersection of a list with itself counts every
element. -/
theorem diceInter_self : ∀ l : List (List Char), diceInter l l = l.length
  | [] => rfl
  | x :: xs => by
    rw [diceInter]
    simp only [List.contains_cons, BEq.refl, Bool.true_or, if_pos]
    rw [List.erase_cons_head]
    rw [diceInter_self xs]
    simp [Nat.add_comm]

/-- Dice coefficient of a nonempty bigram list with itself is 1. -/
theorem diceCoefficientQ_self (l : List (List Char)) (h : l ≠ []) :
    diceCoefficientQ l l = 1 := by
  rw [diceCoefficientQ, diceInter_self]
  have hlen : l.length ≠ 0 := by simpa using h
  rw [if_neg (by omega)]
  have : (2 * l.length : Int) = (l.length + l.length : Nat) := by push_cast; ring
  rw [this]
  exact Rat.divInt_self' (by exact_mod_cast (by omega : (l.length + l.length : Nat) ≠ 0))

/-- A bigram list is never empty. -/
theorem bigramsJ_ne_nil (t : String) : bigramsJ t ≠ [] := by
  simp only [bigramsJ]
  generalize (normalizeText t).data = s
  split
  · simp
  · rename_i hlen
    match s, hlen with
    | a :: b :: rest, _ => simp [pairsOf]
    | [], h => simp at h
    | [c], h => simp at h

/-! ## Claims -/

/-- C7 (counterexample): the claim "the fuzzy similarity score equals the
maximum of token-set Jaccard and character-bigram Dice" fails at
`a = "ab cd"`, `b = "cd"`: the substring shortcut returns 1 while the
stated maximum is 1/2. -/
theorem claimC7_counterexample :
    fuzzyScore "ab cd" "cd" ≠
      maxQ (jaccardQ (tokenizeJ "ab cd") (tokenizeJ "cd"))
        (diceCoefficientQ (bigramsJ "ab cd") (bigramsJ "cd")) ∧
    fuzzyScore "ab cd" "cd" = 1 ∧
    maxQ (jaccardQ (tokenizeJ "ab cd") (tokenizeJ "cd"))
      (diceCoefficientQ (bigramsJ "ab cd") (bigramsJ "cd")) = Rat.divInt 1 2 := by
  refine ⟨by decide, by decide, by decide⟩

/-- C7 (amended): when neither raw text contains the other as a substring,
the `doc.contains_fuzzy` score is exactly the maximum of token-set Jaccard
and character-bigram Dice over normalized text (otherwise the score is the
shortcut value 1); and any two texts identical after normalization score
exactly 1. -/
theorem claimC7 :
    (∀ a b : String, inclJ a b = false → inclJ b a = false →
      fuzzyScore a b =
        maxQ (jaccardQ (tokenizeJ a) (tokenizeJ b))
          (diceCoefficientQ (bigramsJ a) (bigramsJ b))) ∧
    (∀ a b : String, normalizeText a = normalizeText b → fuzzyScore a b = 1) := by
  constructor
  · intro a b h1 h2
    rw [fuzzyScore, h1, h2]
    simp
  · intro a b h
    rw [fuzzyScore]
    split
    · rfl
    · have hbig : bigramsJ b = bigramsJ a := by
        rw [bigramsJ, bigramsJ, h]
      rw [hbig, diceCoefficientQ_self _ (bigramsJ_ne_nil a), maxQ,
        if_pos (jaccardQ_le_one _ _)]

/-- C7 (witness): a concrete pair, differing only in case, punctuation and
spacing, on which both conjuncts of `claimC7` apply. -/
theorem claimC7_witness :
    (inclJ "Hello, World!" "hello   world" = false ∧
     inclJ "hello   world" "Hello, World!" = false ∧
     normalizeText "Hello, World!" = normalizeText "hello   world") ∧
    fuzzyScore "Hello, World!" "hello   world" =
      maxQ (jaccardQ (tokenizeJ "Hello, World!") (tokenizeJ "hello   world"))
        (diceCoefficientQ (bigramsJ "Hello, World!") (bigramsJ "hello   world")) ∧
    fuzzyScore "Hello, World!" "hello   world" = 1 :=
  ⟨⟨by decide, by decide, by decide⟩,
   claimC7.1 "Hello, World!" "hello   world" (by decide) (by decide),
   claimC7.2 "Hello, World!" "hello   world" (by decide)⟩

/-- C8: `checkDocContainsFuzzy` fails exactly when the score is below the
threshold and `gate` is not explicitly `false`; with `gate: false` a
below-threshold score only warns; at or above the threshold it passes. -/
theorem claimC8 (content text : String) (threshold : ℚ) (gate : Option Bool) :
    (checkDocContainsFuzzy content text threshold gate = .failed ↔
      (fuzzyScore content text < threshold ∧ gate ≠ some false)) ∧
    (checkDocContainsFuzzy content text threshold gate = .warned ↔
      (fuzzyScore content text < threshold ∧ gate = some false)) ∧
    (checkDocContainsFuzzy content text threshold gate = .passed ↔
      ¬ fuzzyScore content text < threshold) := by
  rw [checkDocContainsFuzzy]
  by_cases h : fuzzyScore content text < threshold
  · by_cases hg : gate = some false
    · simp [h, hg]
    · simp [h, hg]
  · simp [h]

/-- C6 (counterexample): the claim "the runtime's allow/deny decision
agrees with the compiler's decision for that path" fails when the spec
declares write scopes: for path `README.md` under allowed glob `**` with
spec scope `apps/x`, the compiler rejects (E302) while the runtime
accepts. -/
theorem claimC6_counterexample :
    isAllowedPath pmLit "README.md" ["**"] [] = true ∧
    (effectCheckPath pmLit "README.md" ["**"] (some ["apps/x"]) []).1 = false := by
  refine ⟨by decide, by decide⟩

/-- C6 (amended): the runtime re-check agrees with the compiler's
manifest-level decision — `isAllowedPath` equals `effectCheckPath` with no
spec write-scopes — and for `RUN` ops the compiler's accept/reject
decision coincides with the runtime policy gate; a policy-rejected op
makes the op loop throw with no effect applied.  (The spec-level
`writeScopes` check is compile-time only, as the counterexample shows.) -/
theorem claimC6 :
    (∀ (pm : String → String → Bool) (p : String) (allowed denied : List String),
      isAllowedPath pm p allowed denied = (effectCheckPath pm p allowed none denied).1) ∧
    (∀ (cmd : String) (prefixes subs : List String),
      (effectCheckCmd cmd prefixes subs).1 = (runCmdPolicyErr cmd prefixes subs).isNone) ∧
    (∀ (pm : String → String → Bool) (tmpl : String → Except String String)
       (cmdRes : String → Bool) (allowed denied prefixes subs : List String)
       (op : Op) (ops : List Op) (e : String),
      applyOp pm tmpl cmdRes allowed denied prefixes subs op = .error e →
      runOps pm tmpl cmdRes allowed denied prefixes subs (op :: ops) = ([], some e)) := by
  refine ⟨?_, ?_, ?_⟩
  · intro pm p allowed denied
    rw [isAllowedPath, effectCheckPath]
    by_cases hd : denied.any (fun g => pm p g)
    · simp [hd]
    · by_cases ha : allowed.any (fun g => pm p g) <;> simp [hd, ha]
  · intro cmd prefixes subs
    rw [effectCheckCmd, runCmdPolicyErr]
    by_cases hp : leadTokenJ cmd ∈ prefixes
    · cases hf : subs.find? (fun bad => inclJ cmd bad) <;> simp [hp, hf]
    · simp [hp]
  · intro pm tmpl cmdRes allowed denied prefixes subs op ops e h
    rw [runOps, h]

/-- C6 (witness): a command with a disallowed prefix is rejected by the
compiler and makes the runtime op loop abort with no effect. -/
theorem claimC6_witness :
    applyOp pmLit (fun _ => .error "no template") (fun _ => true) [] [] ["pnpm"] []
        (.RUN "rm -rf x" none) = .error "Command not allowed: rm" ∧
    (effectCheckCmd "rm -rf x" ["pnpm"] []).1 =
      (runCmdPolicyErr "rm -rf x" ["pnpm"] []).isNone ∧
    runOps pmLit (fun _ => .error "no template") (fun _ => true) [] [] ["pnpm"] []
        [.RUN "rm -rf x" none] = ([], some "Command not allowed: rm") :=
  ⟨by decide, claimC6.2.1 "rm -rf x" ["pnpm"] [],
   claimC6.2.2 pmLit (fun _ => .error "no template") (fun _ => true) [] [] ["pnpm"] []
     (.RUN "rm -rf x" none) [] "Command not allowed: rm" (by decide)⟩

/-- C5: the claim "every decision list whose parent references form a
cycle raises a cycle error" is contradicted by the code: on the pure
two-cycle `A → B → A` every node has a parent, so the root set is empty,
the depth-first traversal never runs, and `buildDecisionTree` returns a
tree whose index still contains the cycle.  (On acyclic input the builder
behaves as the spec describes, second conjunct.) -/
theorem claimC5_bug :
    buildDecisionTree [cycA, cycB] =
      .ok ⟨[("A", ⟨cycA, some "B", ["B"]⟩), ("B", ⟨cycB, some "A", ["A"]⟩)],
           [], [("A", (some "B", ["B"])), ("B", (some "A", ["A"]))]⟩ ∧
    buildDecisionTree
        [⟨"A", "q", "a", "r", "final", 1, none, none⟩,
         ⟨"B", "q", "a", "r", "final", 1, none, some "A"⟩] =
      .ok ⟨[("A", ⟨⟨"A", "q", "a", "r", "final", 1, none, none⟩, none, ["B"]⟩),
            ("B", ⟨⟨"B", "q", "a", "r", "final", 1, none, some "A"⟩, some "A", []⟩)],
           ["A"], [("A", (none, ["B"])), ("B", (some "A", []))]⟩ := by
  refine ⟨by decide, by decide⟩

theorem countErrors_append (a b : List Diag) :
    countErrors (a ++ b) = countErrors a + countErrors b := by
  simp [countErrors, List.filter_append]

theorem countErrors_ne_zero_of_mem {d : Diag} {l : List Diag}
    (hm : d ∈ l) (he : d.severity = .error) : countErrors l ≠ 0 := by
  simp only [countErrors]
  intro h0
  rw [List.length_eq_zero] at h0
  have hd : d ∈ l.filter (fun d => match d.severity with | .error => true | _ => false) :=
    List.mem_filter.mpr ⟨hm, by rw [he]⟩
  rw [h0] at hd
  simp at hd

/-- After a successful parse and manifest lookup, `compileWebSpec` is the
compile body. -/
theorem compileWebSpec_core (pm : String → String → Bool) (input : CompileInput)
    (spec : Spec) (manifest : Manifest)
    (hp : input.parse = .ok spec)
    (hm : lookupRegistry input.registry spec.target = some (.ok manifest)) :
    compileWebSpec pm input = compileCore pm spec manifest input.sourceText := by
  simp only [compileWebSpec, hp, hm]

/-- Case facts about the final gate. -/
theorem finishCompile_spec (ds : List Diag) (m : Manifest) (src : String)
    (steps1 : List PStep) :
    ((finishCompile ds m src steps1).ok = true ↔ countErrors ds = 0) ∧
    (finishCompile ds m src steps1).diagnostics = ds ∧
    ((finishCompile ds m src steps1).plan.isSome = true ↔ countErrors ds = 0) ∧
    (∀ p, (finishCompile ds m src steps1).plan = some p →
      p = ⟨"webspec/plan-v0.1", m.id, m.presetVersion, sha256Hex src, steps1⟩) := by
  unfold finishCompile
  by_cases hc : countErrors ds = 0
  · rw [if_pos hc]
    exact ⟨by simp [hc], rfl, by simp [hc], fun p hp => by simpa using hp.symm⟩
  · rw [if_neg hc]
    exact ⟨by simp [hc], rfl, by simp [hc], fun p hp => by cases hp⟩

/-- C1 (counterexample): the claim quantifies over every compile input,
but on `inputCrash` (a legacy spec whose manifest carries a `writeFile`
action inside `stack.shadcn_init`) `compileWebSpec` throws a `TypeError`
instead of returning ok/diagnostics at all. -/
theorem claimC1_counterexample :
    (compileWebSpec pmLit inputCrash).isOk = false ∧
    compileWebSpec pmLit inputCrash =
      .error "TypeError: Cannot read properties of undefined (reading replace)" := by
  refine ⟨by decide, by decide⟩

/-- C1 (amended): on every input where `compileWebSpec` returns normally,
a plan is emitted exactly when `ok` is true, and `ok` is true exactly when
no error-severity diagnostic was produced (so warn/info diagnostics alone
never block emission). -/
theorem claimC1 (pm : String → String → Bool) (input : CompileInput) (r : CompileOutput)
    (h : compileWebSpec pm input = .ok r) :
    (r.ok = true ↔ r.plan.isSome = true) ∧
    (r.ok = true ↔ countErrors r.diagnostics = 0) := by
  cases hparse : input.parse with
  | error e =>
    simp only [compileWebSpec, hparse, Except.ok.injEq] at h
    cases h
    simp [countErrors, diagE]
  | ok spec =>
    cases hreg : lookupRegistry input.registry spec.target with
    | none =>
      simp only [compileWebSpec, hparse, hreg, Except.ok.injEq] at h
      cases h
      simp [countErrors, diagE]
    | some me =>
      cases me with
      | error e =>
        simp only [compileWebSpec, hparse, hreg, Except.ok.injEq] at h
        cases h
        simp [countErrors, diagE]
      | ok manifest =>
        rw [compileWebSpec_core pm input spec manifest hparse hreg] at h
        simp only [compileCore] at h
        split at h
        · cases h
        · rename_i steps0 dBuild heq
          simp only [Except.ok.injEq] at h
          cases h
          obtain ⟨h1, h2, h3, _⟩ := finishCompile_spec
            (compileDiagnostics pm spec manifest steps0 dBuild) manifest
            input.sourceText (appendDocsAndArtifactsChecks spec steps0)
          rw [h1, h2, h3]
          exact ⟨Iff.rfl, Iff.rfl⟩

/-- C1 (witness): an unknown-target input returns `ok: false` with one
error diagnostic and no plan. -/
theorem claimC1_witness :
    compileWebSpec pmLit inputUnknown = .ok outUnknown ∧
    ((outUnknown.ok = true ↔ outUnknown.plan.isSome = true) ∧
     (outUnknown.ok = true ↔ countErrors outUnknown.diagnostics = 0)) :=
  ⟨by decide, claimC1 pmLit inputUnknown outUnknown (by decide)⟩

/-- C3: `compileWebSpec` is a pure function — equal inputs give equal
outputs, trivially in this embedding, which is faithful because the
source consults no clock, randomness or mutable global — and every
emitted plan's `specHash` is the SHA-256 hex digest of the raw spec
source text. -/
theorem claimC3 (pm : String → String → Bool) (input : CompileInput) :
    compileWebSpec pm input = compileWebSpec pm input ∧
    (∀ (r : CompileOutput) (p : Plan),
      compileWebSpec pm input = .ok r → r.plan = some p →
      p.specHash = sha256Hex input.sourceText) := by
  refine ⟨rfl, ?_⟩
  intro r p h hp
  cases hparse : input.parse with
  | error e =>
    simp only [compileWebSpec, hparse, Except.ok.injEq] at h
    cases h
    cases hp
  | ok spec =>
    cases hreg : lookupRegistry input.registry spec.target with
    | none =>
      simp only [compileWebSpec, hparse, hreg, Except.ok.injEq] at h
      cases h
      cases hp
    | some me =>
      cases me with
      | error e =>
        simp only [compileWebSpec, hparse, hreg, Except.ok.injEq] at h
        cases h
        cases hp
      | ok manifest =>
        rw [compileWebSpec_core pm input spec manifest hparse hreg] at h
        simp only [compileCore] at h
        split at h
        · cases h
        · rename_i steps0 dBuild heq
          simp only [Except.ok.injEq] at h
          cases h
          obtain ⟨_, _, _, h4⟩ := finishCompile_spec
            (compileDiagnostics pm spec manifest steps0 dBuild) manifest
            input.sourceText (appendDocsAndArtifactsChecks spec steps0)
          rw [h4 p hp]

/-- C3 (witness): the well-formed v0.2 input compiles to a plan whose
`specHash` is the digest of its source text. -/
theorem claimC3_witness :
    compileWebSpec pmLit inputV2ok = .ok outV2ok ∧
    outV2ok.plan = some planV2ok ∧
    planV2ok.specHash = sha256Hex "demo-src" :=
  ⟨by rfl, rfl, (claimC3 pmLit inputV2ok).2 outV2ok planV2ok (by rfl) rfl⟩

/-! ## Diagnostic inventories

Every diagnostic the current compiler produces is error-severity (each
`diag(...)` call site leaves the default); these lemmas record that, and
which codes each producer can emit. -/

def emitsOnly (codes : List String) (l : List Diag) : Prop :=
  ∀ d ∈ l, d.severity = .error ∧ d.code ∈ codes

theorem emitsOnly_nil (codes : List String) : emitsOnly codes [] := by
  intro d hd
  cases hd

theorem emitsOnly_append {codes : List String} {a b : List Diag}
    (ha : emitsOnly codes a) (hb : emitsOnly codes b) : emitsOnly codes (a ++ b) := by
  intro d hd
  rcases List.mem_append.mp hd with h | h
  · exact ha d h
  · exact hb d h

theorem emitsOnly_mono {codes codes2 : List String} {l : List Diag}
    (hsub : ∀ c ∈ codes, c ∈ codes2) (h : emitsOnly codes l) : emitsOnly codes2 l :=
  fun d hd => ⟨(h d hd).1, hsub _ (h d hd).2⟩

theorem emitsOnly_single {codes : List String} {c m : String} {hint pa : Option String}
    (hc : c ∈ codes) : emitsOnly codes [diagE c m hint pa] := by
  intro d hd
  rcases List.mem_singleton.mp hd with rfl
  exact ⟨rfl, hc⟩

/-- A list of error diagnostics with zero error count is empty. -/
theorem eq_nil_of_emitsOnly {codes : List String} {l : List Diag}
    (h : emitsOnly codes l) (h0 : countErrors l = 0) : l = [] := by
  cases l with
  | nil => rfl
  | cons d rest =>
    exfalso
    exact countErrors_ne_zero_of_mem (List.mem_cons_self d rest)
      (h d (List.mem_cons_self d rest)).1 h0

theorem normVarsGo_emits (args : List (String × JVal)) :
    ∀ (l : List (String × ArgType)) (vars : List (String × JVal)),
      emitsOnly ["E201_MISSING_MACRO_ARG"] (normVarsGo args vars l).2
  | [], vars => by
    rw [normVarsGo]
    exact emitsOnly_nil _
  | (key, typ) :: rest, vars => by
    rw [normVarsGo]
    split
    · rcases hnv : normVarsGo args (setVar vars key (.jstr "")) rest with ⟨v, ds⟩
      intro d hd
      simp only [hnv] at hd
      rcases List.mem_cons.mp hd with rfl | hd2
      · exact ⟨rfl, by simp [diagE]⟩
      · have ih := normVarsGo_emits args rest (setVar vars key (.jstr ""))
        rw [hnv] at ih
        exact ih d hd2
    · split
      · exact normVarsGo_emits args rest _
      · exact normVarsGo_emits args rest vars

theorem expandMacro_emits (name : String) (args : List (String × JVal)) (manifest : Manifest) :
    emitsOnly ["E200_UNKNOWN_MACRO", "E201_MISSING_MACRO_ARG"]
      (expandMacro name args manifest).2 := by
  rw [expandMacro]
  split
  · exact emitsOnly_single (by simp)
  · rename_i mac hfound
    rcases hnv : normalizeMacroVars args mac with ⟨vars, ds⟩
    simp only [hnv]
    have h2 := normVarsGo_emits args mac.args args
    rw [show normVarsGo args args mac.args = (vars, ds) from hnv] at h2
    exact emitsOnly_mono
      (by intro c hc; simp only [List.mem_singleton] at hc; simp [hc]) h2

/-- The codes the per-step plan construction can produce. -/
def buildCodes : List String :=
  ["E200_UNKNOWN_MACRO", "E201_MISSING_MACRO_ARG", "E210_UNKNOWN_ENSURE",
   "E211_UNKNOWN_ACTION", "E220_WRITEFILE_NO_CONTENT"]

theorem writeFileContent_emits (p : String) (content : Option String) :
    emitsOnly buildCodes (writeFileContent p content).2 := by
  cases content with
  | none => exact emitsOnly_single (by simp [buildCodes])
  | some c => exact emitsOnly_nil _

theorem mapActionToOps_emits (a : ActionDecl) (manifest : Manifest) :
    emitsOnly buildCodes (mapActionToOps a manifest).2 := by
  cases a with
  | run cmd => exact emitsOnly_nil _
  | writeFile p content template vs =>
    simp only [mapActionToOps]
    split
    · split
      · exact emitsOnly_nil _
      · exact writeFileContent_emits p content
    · exact writeFileContent_emits p content
  | appendFile p c => exact emitsOnly_nil _
  | writeTemplate p t vs => exact emitsOnly_nil _
  | macroCall name args =>
    refine emitsOnly_mono ?_ (expandMacro_emits name (args.getD []) manifest)
    intro c hc
    simp only [List.mem_cons, List.mem_singleton, buildCodes] at *
    tauto
  | unknownAction => exact emitsOnly_single (by simp [buildCodes])

theorem actionsToOps_emits (manifest : Manifest) :
    ∀ l : List ActionDecl, emitsOnly buildCodes (actionsToOps manifest l).2
  | [] => by
    rw [actionsToOps]
    exact emitsOnly_nil _
  | a :: rest => by
    rw [actionsToOps]
    exact emitsOnly_append (mapActionToOps_emits a manifest) (actionsToOps_emits manifest rest)

theorem mapEnsureToCheck_emits (e : EnsureDecl) :
    emitsOnly buildCodes (mapEnsureToCheck e).2 := by
  cases e <;> first
    | exact emitsOnly_nil _
    | exact emitsOnly_single (by simp [buildCodes])

theorem ensuresToChecks_emits :
    ∀ l : List EnsureDecl, emitsOnly buildCodes (ensuresToChecks l).2
  | [] => by
    rw [ensuresToChecks]
    exact emitsOnly_nil _
  | e :: rest => by
    rw [ensuresToChecks]
    exact emitsOnly_append (mapEnsureToCheck_emits e) (ensuresToChecks_emits rest)

theorem buildStepsGo_emits (manifest : Manifest) :
    ∀ l : List StepDecl, emitsOnly buildCodes (buildStepsGo manifest l).2
  | [] => by
    rw [buildStepsGo]
    exact emitsOnly_nil _
  | st :: rest => by
    rw [buildStepsGo]
    exact emitsOnly_append
      (emitsOnly_append (actionsToOps_emits manifest st.actions)
        (ensuresToChecks_emits st.ensures))
      (buildStepsGo_emits manifest rest)

theorem buildStepsFromSpec_emits (spec : Spec) (manifest : Manifest) :
    emitsOnly buildCodes (buildStepsFromSpec spec manifest).2 :=
  buildStepsGo_emits manifest _

def assumeCodes : List String :=
  ["E413_DECISION_DUPLICATE", "E410_UNVERIFIED_ASSUMPTION",
   "E411_ASSUMPTION_NO_DECISION", "E412_ASSUMPTION_DECISION_NOT_FINAL"]

theorem buildDecisionMapGo_emits :
    ∀ (l : List Decision) (m : List (String × Decision)),
      emitsOnly assumeCodes (buildDecisionMapGo m l).2
  | [], m => by
    rw [buildDecisionMapGo]
    exact emitsOnly_nil _
  | d :: rest, m => by
    rw [buildDecisionMapGo]
    rcases hgo : buildDecisionMapGo (setDecision m d.id d) rest with ⟨m2, ds⟩
    simp only [hgo]
    refine emitsOnly_append ?_ ?_
    · split
      · exact emitsOnly_single (by simp [assumeCodes])
      · exact emitsOnly_nil _
    · have ih := buildDecisionMapGo_emits rest (setDecision m d.id d)
      rw [hgo] at ih
      exact ih

theorem validateAssumptionsGo_emits (dmap : List (String × Decision)) :
    ∀ l : List Assumption, emitsOnly assumeCodes (validateAssumptionsGo dmap l)
  | [] => by
    rw [validateAssumptionsGo]
    exact emitsOnly_nil _
  | a :: rest => by
    rw [validateAssumptionsGo]
    refine emitsOnly_append (emitsOnly_append ?_ ?_) (validateAssumptionsGo_emits dmap rest)
    · split
      · exact emitsOnly_single (by simp [assumeCodes])
      · exact emitsOnly_nil _
    · split
      · exact emitsOnly_single (by simp [assumeCodes])
      · split
        · exact emitsOnly_single (by simp [assumeCodes])
        · exact emitsOnly_nil _

theorem validateAssumptionsAndDecisions_emits (spec : Spec) :
    emitsOnly assumeCodes (validateAssumptionsAndDecisions spec).2 := by
  rw [validateAssumptionsAndDecisions]
  rcases hgo : buildDecisionMapGo [] (spec.decisions.getD []) with ⟨dmap, d1⟩
  simp only [hgo]
  refine emitsOnly_append ?_ (validateAssumptionsGo_emits dmap _)
  have := buildDecisionMapGo_emits (spec.decisions.getD []) []
  rw [hgo] at this
  exact this

def claimsCodes : List String :=
  ["E424_MISSING_INVARIANTS", "E420_STEP_NO_CLAIMS", "E421_UNKNOWN_CLAIM",
   "E422_UNCLAIMED_INVARIANT", "E425_STEP_DECISION_MISSING",
   "E426_STEP_DECISION_NOT_FINAL"]

theorem claimsOfStep_emits (invIds : List String) (stepId : String) :
    ∀ (cs : List String) (claimed : List String),
      emitsOnly claimsCodes (claimsOfStep invIds stepId claimed cs).2
  | [], claimed => by
    rw [claimsOfStep]
    exact emitsOnly_nil _
  | c :: cs, claimed => by
    rw [claimsOfStep]
    split
    · exact claimsOfStep_emits invIds stepId cs (claimed ++ [c])
    · rcases hgo : claimsOfStep invIds stepId claimed cs with ⟨cl, ds⟩
      simp only [hgo]
      intro d hd
      rcases List.mem_cons.mp hd with rfl | hd2
      · exact ⟨rfl, by simp [diagE, claimsCodes]⟩
      · have ih := claimsOfStep_emits invIds stepId cs claimed
        rw [hgo] at ih
        exact ih d hd2

theorem ensureStepHasClaims_emits (s : PStep) :
    emitsOnly claimsCodes (ensureStepHasClaims s) := by
  rw [ensureStepHasClaims]
  split
  · exact emitsOnly_single (by simp [claimsCodes])
  · exact emitsOnly_nil _

theorem claimsSteps_emits (invIds : List String) :
    ∀ (steps : List PStep) (claimed : List String),
      emitsOnly claimsCodes (claimsSteps invIds claimed steps).2
  | [], claimed => by
    rw [claimsSteps]
    exact emitsOnly_nil _
  | s :: ss, claimed => by
    rw [claimsSteps]
    rcases hof : claimsOfStep invIds s.id claimed (s.claims.getD []) with ⟨cl1, d2⟩
    rcases hgo : claimsSteps invIds cl1 ss with ⟨cl2, d3⟩
    simp only [hof, hgo]
    refine emitsOnly_append (emitsOnly_append (ensureStepHasClaims_emits s) ?_) ?_
    · have := claimsOfStep_emits invIds s.id (s.claims.getD []) claimed
      rw [hof] at this
      exact this
    · have := claimsSteps_emits invIds ss cl1
      rw [hgo] at this
      exact this

theorem validateClaims_emits (spec : Spec) (steps : List PStep) (userStepIds : List String) :
    emitsOnly claimsCodes (validateClaims spec steps userStepIds) := by
  rw [validateClaims]
  split
  · exact emitsOnly_single (by simp [claimsCodes])
  · rcases hgo : claimsSteps (dedupFirst
        (((spec.intent.bind Intent.invariants).getD []).map Invariant.id)) []
        (steps.filter (fun s => userStepIds.contains s.id)) with ⟨claimed, ds⟩
    simp only [hgo]
    refine emitsOnly_append ?_ ?_
    · have := claimsSteps_emits (dedupFirst
        (((spec.intent.bind Intent.invariants).getD []).map Invariant.id))
        (steps.filter (fun s => userStepIds.contains s.id)) []
      rw [hgo] at this
      exact this
    · intro d hd
      rcases List.mem_map.mp hd with ⟨inv, _, rfl⟩
      exact ⟨rfl, by simp [diagE, claimsCodes]⟩

theorem stepDecisionsGo_emits (dmap : List (String × Decision)) (stepId : String) :
    ∀ l : List String, emitsOnly claimsCodes (stepDecisionsGo dmap stepId l)
  | [] => by
    rw [stepDecisionsGo]
    exact emitsOnly_nil _
  | d :: rest => by
    rw [stepDecisionsGo]
    refine emitsOnly_append ?_ (stepDecisionsGo_emits dmap stepId rest)
    split
    · exact emitsOnly_single (by simp [claimsCodes])
    · split
      · exact emitsOnly_single (by simp [claimsCodes])
      · exact emitsOnly_nil _

theorem validateStepDecisions_emits (steps : List PStep) (userStepIds : List String)
    (dmap : List (String × Decision)) :
    emitsOnly claimsCodes (validateStepDecisions steps userStepIds dmap) := by
  rw [validateStepDecisions]
  intro d hd
  rcases List.mem_flatMap.mp hd with ⟨s, _, hmem⟩
  by_cases hu : userStepIds.contains s.id
  · rw [if_pos hu] at hmem
    exact stepDecisionsGo_emits dmap s.id (s.decisions.getD []) d hmem
  · rw [if_neg hu] at hmem
    cases hmem

theorem validateArtifactsWritten_emits (spec : Spec) (steps : List PStep) :
    emitsOnly ["E460_ARTIFACT_NOT_WRITTEN"] (validateArtifactsWritten spec steps) := by
  rw [validateArtifactsWritten]
  split
  · exact emitsOnly_nil _
  · intro d hd
    rcases List.mem_filterMap.mp hd with ⟨a, _, hsome⟩
    split at hsome
    · cases hsome
    · cases hsome
      exact ⟨rfl, by simp [diagE]⟩

def effectCodes : List String :=
  ["E301_DENIED_PATH", "E300_WRITE_OUTSIDE", "E302_SCOPE_VIOLATION",
   "E310_CMD_NOT_ALLOWED", "E311_CMD_DENIED_SUBSTRING", "E400_STEP_NO_ENSURES"]

theorem effectCheckPath_emits (pm : String → String → Bool) (p : String)
    (allowed : List String) (sa : Option (List String)) (denied : List String) :
    emitsOnly effectCodes (effectCheckPath pm p allowed sa denied).2 := by
  unfold effectCheckPath
  split
  · exact emitsOnly_single (by simp [effectCodes])
  · split
    · exact emitsOnly_single (by simp [effectCodes])
    · split
      · split
        · exact emitsOnly_nil _
        · exact emitsOnly_single (by simp [effectCodes])
      · exact emitsOnly_nil _

theorem effectCheckCmd_emits (cmd : String) (allowPrefixes denySubs : List String) :
    emitsOnly effectCodes (effectCheckCmd cmd allowPrefixes denySubs).2 := by
  unfold effectCheckCmd
  split
  · exact emitsOnly_single (by simp [effectCodes])
  · split
    · exact emitsOnly_single (by simp [effectCodes])
    · exact emitsOnly_nil _

theorem effectOpDiags_emits (pm : String → String → Bool) (allowed : List String)
    (sa : Option (List String)) (denied ap ds : List String) (op : Op) :
    emitsOnly effectCodes (effectOpDiags pm allowed sa denied ap ds op) := by
  cases op with
  | RUN cmd cwd => exact effectCheckCmd_emits cmd ap ds
  | WRITE_FILE p c => exact effectCheckPath_emits pm p allowed sa denied
  | APPEND_FILE p c => exact effectCheckPath_emits pm p allowed sa denied
  | WRITE_TEMPLATE p t vs => exact effectCheckPath_emits pm p allowed sa denied

theorem ensureStepHasProofs_emits (s : PStep) :
    emitsOnly effectCodes (ensureStepHasProofs s) := by
  rw [ensureStepHasProofs]
  split
  · exact emitsOnly_single (by simp [effectCodes])
  · exact emitsOnly_nil _

theorem effectLoop_emits (pm : String → String → Bool) (allowed : List String)
    (sa : Option (List String)) (denied ap ds : List String) :
    ∀ steps : List PStep, emitsOnly effectCodes (effectLoop pm allowed sa denied ap ds steps)
  | [] => by
    rw [effectLoop]
    exact emitsOnly_nil _
  | s :: ss => by
    rw [effectLoop]
    refine emitsOnly_append (emitsOnly_append ?_ (ensureStepHasProofs_emits s))
      (effectLoop_emits pm allowed sa denied ap ds ss)
    intro d hd
    rcases List.mem_flatMap.mp hd with ⟨op, _, hmem⟩
    exact effectOpDiags_emits pm allowed sa denied ap ds op d hmem

/-! ## Structural lemmas about the compile stages -/

def stageCodes : List String := buildCodes ++ ["E902_STEPS_REQUIRED"]

theorem compileStepsStage_custom (spec : Spec) (manifest : Manifest)
    (h : (spec.steps.getD []).isEmpty = false) :
    compileStepsStage spec manifest = .ok (buildStepsFromSpec spec manifest) := by
  unfold compileStepsStage
  rw [if_pos (by simp [h])]

theorem compileStepsStage_emits_v02 (spec : Spec) (manifest : Manifest)
    (steps0 : List PStep) (dBuild : List Diag)
    (hv2 : spec.lang = .v02)
    (hs : compileStepsStage spec manifest = .ok (steps0, dBuild)) :
    emitsOnly stageCodes dBuild := by
  unfold compileStepsStage at hs
  by_cases hcust : (!(spec.steps.getD []).isEmpty) = true
  · rw [if_pos hcust] at hs
    have hps := Except.ok.inj hs
    have hd : dBuild = (buildStepsFromSpec spec manifest).2 := by
      rw [hps]
    rw [hd]
    exact emitsOnly_mono
      (by intro c hc; simp only [stageCodes, List.mem_append]; exact Or.inl hc)
      (buildStepsFromSpec_emits spec manifest)
  · rw [if_neg hcust, if_pos hv2] at hs
    cases hs
    exact emitsOnly_single (by simp [stageCodes])

theorem effectLoop_mem (pm : String → String → Bool) (allowed : List String)
    (sa : Option (List String)) (denied ap ds : List String) :
    ∀ (steps : List PStep) (s : PStep), s ∈ steps → ∀ op ∈ s.ops,
      ∀ d ∈ effectOpDiags pm allowed sa denied ap ds op,
        d ∈ effectLoop pm allowed sa denied ap ds steps
  | [], s, hs => by cases hs
  | t :: ts, s, hs => by
    intro op hop d hd
    rw [effectLoop]
    rcases List.mem_cons.mp hs with rfl | htail
    · exact List.mem_append_left _ (List.mem_append_left _
        (List.mem_flatMap.mpr ⟨op, hop, hd⟩))
    · exact List.mem_append_right _
        (effectLoop_mem pm allowed sa denied ap ds ts s htail op hop d hd)

theorem effectLoop_zero_proofs (pm : String → String → Bool) (allowed : List String)
    (sa : Option (List String)) (denied ap ds : List String) :
    ∀ steps : List PStep, countErrors (effectLoop pm allowed sa denied ap ds steps) = 0 →
      ∀ s ∈ steps, s.ops ≠ [] → s.checks ≠ []
  | [], _, s, hs => by cases hs
  | t :: ts, h, s, hs => by
    rw [effectLoop, countErrors_append, countErrors_append] at h
    intro hops
    rcases List.mem_cons.mp hs with rfl | htail
    · intro hchk
      have hproof : countErrors (ensureStepHasProofs s) = 0 := by omega
      rw [ensureStepHasProofs, if_pos ⟨hops, hchk⟩] at hproof
      simp [countErrors, diagE] at hproof
    · exact effectLoop_zero_proofs pm allowed sa denied ap ds ts (by omega) s htail hops

theorem mem_appendDocs (spec : Spec) (steps : List PStep) (s : PStep)
    (h : s ∈ appendDocsAndArtifactsChecks spec steps) : s ∈ steps ∨ s.ops = [] := by
  rw [appendDocsAndArtifactsChecks] at h
  split at h
  · exact Or.inl h
  · rcases List.mem_append.mp h with h1 | h1
    · exact Or.inl h1
    · rcases List.mem_singleton.mp h1 with rfl
      exact Or.inr rfl

theorem appendDocs_sub (spec : Spec) (steps : List PStep) (s : PStep)
    (h : s ∈ steps) : s ∈ appendDocsAndArtifactsChecks spec steps := by
  rw [appendDocsAndArtifactsChecks]
  split
  · exact h
  · exact List.mem_append_left _ h

theorem buildStepsGo_ids (manifest : Manifest) :
    ∀ (l : List StepDecl) (s : PStep), s ∈ (buildStepsGo manifest l).1 →
      s.id ∈ l.map StepDecl.id
  | [], s => by
    rw [buildStepsGo]
    intro h
    cases h
  | st :: rest, s => by
    rw [buildStepsGo]
    rcases hao : actionsToOps manifest st.actions with ⟨ops, d1⟩
    rcases hec : ensuresToChecks st.ensures with ⟨checks, d2⟩
    rcases hgo : buildStepsGo manifest rest with ⟨steps, d3⟩
    simp only [hao, hec, hgo]
    intro h
    rcases List.mem_cons.mp h with rfl | htail
    · simp
    · have := buildStepsGo_ids manifest rest s
      rw [hgo] at this
      simp only [List.map_cons, List.mem_cons]
      exact Or.inr (this htail)

theorem claimsOfStep_claimed (invIds : List String) (stepId : String) :
    ∀ (cs claimed : List String) (x : String), x ∈ (claimsOfStep invIds stepId claimed cs).1 →
      x ∈ claimed ∨ x ∈ cs
  | [], claimed, x => by
    rw [claimsOfStep]
    exact fun h => Or.inl h
  | c :: cs, claimed, x => by
    rw [claimsOfStep]
    split
    · intro h
      rcases claimsOfStep_claimed invIds stepId cs (claimed ++ [c]) x h with h1 | h1
      · rcases List.mem_append.mp h1 with h2 | h2
        · exact Or.inl h2
        · rcases List.mem_singleton.mp h2 with rfl
          exact Or.inr (List.mem_cons_self _ _)
      · exact Or.inr (List.mem_cons_of_mem _ h1)
    · rcases hgo : claimsOfStep invIds stepId claimed cs with ⟨cl, ds⟩
      simp only [hgo]
      intro h
      have := claimsOfStep_claimed invIds stepId cs claimed x
      rw [hgo] at this
      rcases this h with h1 | h1
      · exact Or.inl h1
      · exact Or.inr (List.mem_cons_of_mem _ h1)

theorem claimsSteps_claimed (invIds : List String) :
    ∀ (steps : List PStep) (claimed : List String) (x : String),
      x ∈ (claimsSteps invIds claimed steps).1 →
      x ∈ claimed ∨ ∃ s ∈ steps, x ∈ s.claims.getD []
  | [], claimed, x => by
    rw [claimsSteps]
    exact fun h => Or.inl h
  | s :: ss, claimed, x => by
    rw [claimsSteps]
    rcases hof : claimsOfStep invIds s.id claimed (s.claims.getD []) with ⟨cl1, d2⟩
    rcases hgo : claimsSteps invIds cl1 ss with ⟨cl2, d3⟩
    simp only [hof, hgo]
    intro h
    have hrec := claimsSteps_claimed invIds ss cl1 x
    rw [hgo] at hrec
    rcases hrec h with h1 | ⟨t, ht, hx⟩
    · have hof2 := claimsOfStep_claimed invIds s.id (s.claims.getD []) claimed x
      rw [hof] at hof2
      rcases hof2 h1 with h2 | h2
      · exact Or.inl h2
      · exact Or.inr ⟨s, List.mem_cons_self _ _, h2⟩
    · exact Or.inr ⟨t, List.mem_cons_of_mem _ ht, hx⟩

theorem claimsSteps_nil_claims (invIds : List String) :
    ∀ (steps : List PStep) (claimed : List String),
      (claimsSteps invIds claimed steps).2 = [] →
      ∀ s ∈ steps, s.ops ≠ [] → stepClaimsEmpty s.claims = false
  | [], claimed, _, s, hs => by cases hs
  | t :: ts, claimed, h, s, hs => by
    rw [claimsSteps] at h
    rcases hof : claimsOfStep invIds t.id claimed (t.claims.getD []) with ⟨cl1, d2⟩
    simp only [hof] at h
    rcases hgo : claimsSteps invIds cl1 ts with ⟨cl2, d3⟩
    simp only [hgo] at h
    simp only [List.append_eq_nil] at h
    obtain ⟨⟨h1, _⟩, h3⟩ := h
    intro hops
    rcases List.mem_cons.mp hs with rfl | htail
    · by_contra hne
      rw [ensureStepHasClaims, if_pos ⟨hops, by simpa using hne⟩] at h1
      cases h1
    · have := claimsSteps_nil_claims invIds ts cl1
      rw [hgo] at this
      exact this h3 s htail hops

theorem effectCheckPath_E301 (pm : String → String → Bool) (p : String)
    (allowed : List String) (sa : Option (List String)) (denied : List String)
    (hden : denied.any (fun g => pm p g) = true) :
    effectCheckPath pm p allowed sa denied =
      (false, [diagE "E301_DENIED_PATH" ("Write denied for path: " ++ p)
        (some "Do not write .env files or denied globs.") none]) := by
  unfold effectCheckPath
  rw [if_pos hden]

theorem effectCheckPath_E300 (pm : String → String → Bool) (p : String)
    (allowed : List String) (sa : Option (List String)) (denied : List String)
    (hden : denied.any (fun g => pm p g) = false)
    (hall : allowed.any (fun g => pm p g) = false) :
    effectCheckPath pm p allowed sa denied =
      (false, [diagE "E300_WRITE_OUTSIDE" ("Write outside allowed globs: " ++ p)
        (some ("Allowed globs: " ++ String.intercalate ", " allowed)) none]) := by
  unfold effectCheckPath
  rw [if_neg (by simp [hden]), if_pos (by simp [hall])]

theorem effectCheckPath_E302 (pm : String → String → Bool) (p : String)
    (allowed : List String) (scopes denied : List String)
    (hden : denied.any (fun g => pm p g) = false)
    (hall : allowed.any (fun g => pm p g) = true)
    (hsc : scopes.any (fun g => pm p g) = false) :
    effectCheckPath pm p allowed (some scopes) denied =
      (false, [diagE "E302_SCOPE_VIOLATION" ("Write outside spec.writeScopes: " ++ p)
        (some ("Spec writeScopes: " ++ String.intercalate ", " scopes)) none]) := by
  unfold effectCheckPath
  rw [if_neg (by simp [hden]), if_neg (by simp [hall])]
  simp only [hsc, Bool.false_eq_true, if_false]

/-- With an empty spec write-scope list every write path produces exactly
one error diagnostic. -/
theorem effectCheckPath_empty_scopes_err (pm : String → String → Bool) (p : String)
    (allowed denied : List String) :
    ∃ d ∈ (effectCheckPath pm p allowed (some []) denied).2, d.severity = .error := by
  by_cases hden : denied.any (fun g => pm p g) = true
  · rw [effectCheckPath_E301 pm p allowed (some []) denied hden]
    exact ⟨_, List.mem_singleton_self _, rfl⟩
  · have hden2 : denied.any (fun g => pm p g) = false := by
      simpa using hden
    by_cases hall : allowed.any (fun g => pm p g) = true
    · rw [effectCheckPath_E302 pm p allowed [] denied hden2 hall rfl]
      exact ⟨_, List.mem_singleton_self _, rfl⟩
    · rw [effectCheckPath_E300 pm p allowed (some []) denied hden2 (by simpa using hall)]
      exact ⟨_, List.mem_singleton_self _, rfl⟩

/-- `effectOpDiags` on a write-producing op is the `effectCheckPath`
diagnostics for its path. -/
theorem effectOpDiags_write (pm : String → String → Bool) (allowed : List String)
    (sa : Option (List String)) (denied ap ds : List String) (op : Op) (p : String)
    (hw : writePathOf op = some p) :
    effectOpDiags pm allowed sa denied ap ds op = (effectCheckPath pm p allowed sa denied).2 := by
  cases op with
  | RUN cmd cwd => cases hw
  | WRITE_FILE q c => cases hw; rfl
  | APPEND_FILE q c => cases hw; rfl
  | WRITE_TEMPLATE q t vs => cases hw; rfl

theorem validateClaims_nil (spec : Spec) (steps : List PStep) (userStepIds : List String)
    (h : validateClaims spec steps userStepIds = []) :
    (∀ s ∈ steps, userStepIds.contains s.id = true → s.ops ≠ [] →
      stepClaimsEmpty s.claims = false) ∧
    (∀ inv ∈ dedupFirst (((spec.intent.bind Intent.invariants).getD []).map Invariant.id),
      ∃ s, s ∈ steps ∧ userStepIds.contains s.id = true ∧ inv ∈ s.claims.getD []) := by
  rw [validateClaims] at h
  split at h
  · cases h
  · rcases hgo : claimsSteps
        (dedupFirst (((spec.intent.bind Intent.invariants).getD []).map Invariant.id)) []
        (steps.filter (fun s => userStepIds.contains s.id)) with ⟨claimed, ds⟩
    simp only [hgo] at h
    rw [List.append_eq_nil] at h
    obtain ⟨h1, h2⟩ := h
    constructor
    · intro s hsmem hume hops
      have hfil : s ∈ steps.filter (fun s => userStepIds.contains s.id) :=
        List.mem_filter.mpr ⟨hsmem, hume⟩
      have := claimsSteps_nil_claims
        (dedupFirst (((spec.intent.bind Intent.invariants).getD []).map Invariant.id))
        (steps.filter (fun s => userStepIds.contains s.id)) []
      rw [hgo] at this
      exact this h1 s hfil hops
    · intro inv hinv
      have hfil := List.map_eq_nil_iff.mp h2
      have hnc := List.filter_eq_nil_iff.mp hfil inv hinv
      have hmem : inv ∈ claimed := by simpa using hnc
      have hcl := claimsSteps_claimed
        (dedupFirst (((spec.intent.bind Intent.invariants).getD []).map Invariant.id))
        (steps.filter (fun s => userStepIds.contains s.id)) [] inv
      rw [hgo] at hcl
      rcases hcl hmem with h3 | ⟨s, hsf, hx⟩
      · cases h3
      · obtain ⟨hsmem, hume⟩ := List.mem_filter.mp hsf
        exact ⟨s, hsmem, hume, hx⟩

/-- All codes the compile body can emit when the spec has explicit steps
and no explicit-expansion-policy gap (everything except `E320` and the
parse/registry codes). -/
def allCodes : List String :=
  stageCodes ++ assumeCodes ++ claimsCodes ++ ["E460_ARTIFACT_NOT_WRITTEN"] ++ effectCodes

theorem compileWebSpec_ok_eq (pm : String → String → Bool) (input : CompileInput)
    (spec : Spec) (manifest : Manifest) (steps0 : List PStep) (dBuild : List Diag)
    (r : CompileOutput)
    (hp : input.parse = .ok spec)
    (hm : lookupRegistry input.registry spec.target = some (.ok manifest))
    (hs : compileStepsStage spec manifest = .ok (steps0, dBuild))
    (hr : compileWebSpec pm input = .ok r) :
    r = finishCompile (compileDiagnostics pm spec manifest steps0 dBuild) manifest
      input.sourceText (appendDocsAndArtifactsChecks spec steps0) := by
  rw [compileWebSpec_core pm input spec manifest hp hm] at hr
  simp only [compileCore, hs] at hr
  exact (Except.ok.inj hr).symm

theorem mem_compileDiagnostics_eff (pm : String → String → Bool) (spec : Spec)
    (manifest : Manifest) (steps0 : List PStep) (dBuild : List Diag) (d : Diag)
    (hd : d ∈ effectLoop pm (inferAllowedWrite manifest).1
      (spec.effects.bind Effects.writeScopes) (inferAllowedWrite manifest).2
      manifest.commands.allowPrefixes (manifest.commands.denySubstrings.getD [])
      (appendDocsAndArtifactsChecks spec steps0)) :
    d ∈ compileDiagnostics pm spec manifest steps0 dBuild := by
  rcases hvad : validateAssumptionsAndDecisions spec with ⟨dmap, dAssume⟩
  simp only [compileDiagnostics, hvad]
  exact List.mem_append_right _ hd

/-- When the step stage emitted only its inventory codes and the
explicit-policy branch is off, every compile-body diagnostic code is in
`allCodes`. -/
theorem compileDiagnostics_emitsOnly (pm : String → String → Bool) (spec : Spec)
    (manifest : Manifest) (steps0 : List PStep) (dBuild : List Diag)
    (hB : emitsOnly stageCodes dBuild)
    (hpol : spec.effects.bind Effects.expansionPolicy ≠ some "explicit") :
    emitsOnly allCodes (compileDiagnostics pm spec manifest steps0 dBuild) := by
  rcases hvad : validateAssumptionsAndDecisions spec with ⟨dmap, dAssume⟩
  simp only [compileDiagnostics, hvad]
  rw [if_neg (fun hc => hpol hc.1), List.nil_append]
  refine emitsOnly_append (emitsOnly_append (emitsOnly_append
    (emitsOnly_append ?_ (emitsOnly_mono (by decide) hB)) ?_)
    (emitsOnly_mono (by decide) (validateArtifactsWritten_emits spec _)))
    (emitsOnly_mono (by decide) (effectLoop_emits pm _ _ _ _ _ _))
  · have := validateAssumptionsAndDecisions_emits spec
    rw [hvad] at this
    exact emitsOnly_mono (by decide) this
  · split
    · exact emitsOnly_append
        (emitsOnly_mono (by decide) (validateClaims_emits spec _ _))
        (emitsOnly_mono (by decide) (validateStepDecisions_emits _ _ _))
    · exact emitsOnly_nil _

/-- C4 (counterexample): on `inputDeny` the built plan has a write op to
`.env`, a path matching none of the allowed globs, yet the compiler emits
no `E300_WRITE_OUTSIDE` at all — the denied-glob check preempts it with
`E301_DENIED_PATH`. -/
theorem claimC4_counterexample :
    compileWebSpec pmLit inputDeny = .ok outDeny ∧
    compileStepsStage specDeny manifestDeny =
      .ok ([⟨"w", [], [.WRITE_FILE ".env" "secret"], [.fileExists ".env"],
        some ["INV-01"], some []⟩], []) ∧
    (inferAllowedWrite manifestDeny).1.any (fun g => pmLit ".env" g) = false ∧
    outDeny.diagnostics.all (fun d => d.code != "E300_WRITE_OUTSIDE") = true :=
  ⟨by decide, by decide, by decide, by decide⟩

/-- C4 (amended): a built step holding a write op whose path matches no
allowed glob always yields an error diagnostic that is `E300` or `E301`
(`E300` with the claimed message whenever the path is not also denied),
and the result is `ok: false` with no plan. -/
theorem claimC4 (pm : String → String → Bool) (input : CompileInput)
    (spec : Spec) (manifest : Manifest) (r : CompileOutput)
    (steps0 : List PStep) (dBuild : List Diag) (s : PStep) (op : Op) (p : String)
    (hp : input.parse = .ok spec)
    (hm : lookupRegistry input.registry spec.target = some (.ok manifest))
    (hs : compileStepsStage spec manifest = .ok (steps0, dBuild))
    (hr : compileWebSpec pm input = .ok r)
    (hmem : s ∈ steps0) (hop : op ∈ s.ops) (hw : writePathOf op = some p)
    (hall : (inferAllowedWrite manifest).1.any (fun g => pm p g) = false) :
    (∃ d ∈ r.diagnostics, d.severity = .error ∧
      (d.code = "E300_WRITE_OUTSIDE" ∨ d.code = "E301_DENIED_PATH") ∧
      ((inferAllowedWrite manifest).2.any (fun g => pm p g) = false →
        d.code = "E300_WRITE_OUTSIDE" ∧
        d.message = "Write outside allowed globs: " ++ p)) ∧
    r.ok = false ∧ r.plan = none := by
  have hre := compileWebSpec_ok_eq pm input spec manifest steps0 dBuild r hp hm hs hr
  obtain ⟨hok, hdiag, hplan, _⟩ := finishCompile_spec
    (compileDiagnostics pm spec manifest steps0 dBuild) manifest
    input.sourceText (appendDocsAndArtifactsChecks spec steps0)
  rw [← hre] at hok hdiag hplan
  have key : ∃ d ∈ (effectCheckPath pm p (inferAllowedWrite manifest).1
      (spec.effects.bind Effects.writeScopes) (inferAllowedWrite manifest).2).2,
      d.severity = .error ∧
      (d.code = "E300_WRITE_OUTSIDE" ∨ d.code = "E301_DENIED_PATH") ∧
      ((inferAllowedWrite manifest).2.any (fun g => pm p g) = false →
        d.code = "E300_WRITE_OUTSIDE" ∧
        d.message = "Write outside allowed globs: " ++ p) := by
    by_cases hden : (inferAllowedWrite manifest).2.any (fun g => pm p g) = true
    · rw [effectCheckPath_E301 pm p _ _ _ hden]
      refine ⟨_, List.mem_singleton_self _, rfl, Or.inr rfl, ?_⟩
      intro hc
      rw [hc] at hden
      exact absurd hden (by simp)
    · have hden2 : (inferAllowedWrite manifest).2.any (fun g => pm p g) = false := by
        simpa using hden
      rw [effectCheckPath_E300 pm p _ _ _ hden2 hall]
      exact ⟨_, List.mem_singleton_self _, rfl, Or.inl rfl, fun _ => ⟨rfl, rfl⟩⟩
  obtain ⟨d, hdmem, hprops⟩ := key
  have hdr : d ∈ r.diagnostics := by
    rw [hdiag]
    refine mem_compileDiagnostics_eff pm spec manifest steps0 dBuild d ?_
    refine effectLoop_mem pm _ _ _ _ _ _ s (appendDocs_sub spec steps0 s hmem) op hop d ?_
    rw [effectOpDiags_write pm _ _ _ _ _ op p hw]
    exact hdmem
  have hcnt : countErrors (compileDiagnostics pm spec manifest steps0 dBuild) ≠ 0 := by
    refine countErrors_ne_zero_of_mem ?_ hprops.1
    rw [← hdiag]
    exact hdr
  refine ⟨⟨d, hdr, hprops⟩, ?_, ?_⟩
  · cases hb : r.ok with
    | false => rfl
    | true => exact absurd (hok.mp hb) hcnt
  · have : ¬ r.plan.isSome = true := fun h => hcnt (hplan.mp h)
    exact Option.not_isSome_iff_eq_none.mp this

/-- C4 (witness): the `.env`-writing spec against a manifest that denies
`.env` and allows only `apps/x`. -/
theorem claimC4_witness :
    compileWebSpec pmLit inputDeny = .ok outDeny ∧
    ((∃ d ∈ outDeny.diagnostics, d.severity = .error ∧
      (d.code = "E300_WRITE_OUTSIDE" ∨ d.code = "E301_DENIED_PATH") ∧
      ((inferAllowedWrite manifestDeny).2.any (fun g => pmLit ".env" g) = false →
        d.code = "E300_WRITE_OUTSIDE" ∧
        d.message = "Write outside allowed globs: " ++ ".env")) ∧
     outDeny.ok = false ∧ outDeny.plan = none) :=
  ⟨by decide,
   claimC4 pmLit inputDeny specDeny manifestDeny outDeny
     [⟨"w", [], [.WRITE_FILE ".env" "secret"], [.fileExists ".env"],
       some ["INV-01"], some []⟩] []
     ⟨"w", [], [.WRITE_FILE ".env" "secret"], [.fileExists ".env"],
       some ["INV-01"], some []⟩
     (.WRITE_FILE ".env" "secret") ".env"
     (by rfl) (by decide) (by decide) (by decide)
     (by decide) (by decide) (by decide) (by decide)⟩

/-- C10 (counterexample): `specScopesDenied` declares `writeScopes: []`
with no expansion policy and its only op writes the denied path `.env`:
that op gets `E301`, not the claimed `E302` (no `E302` is emitted at
all). -/
theorem claimC10_counterexample :
    compileWebSpec pmLit inputScopesDenied = .ok outScopesDenied ∧
    specScopesDenied.effects.bind Effects.writeScopes = some [] ∧
    specScopesDenied.effects.bind Effects.expansionPolicy = none ∧
    compileStepsStage specScopesDenied manifestScopes =
      .ok ([⟨"w", [], [.WRITE_FILE ".env" "x"], [.fileExists ".env"],
        some ["INV-01"], some []⟩], []) ∧
    outScopesDenied.diagnostics.all (fun d => d.code != "E302_SCOPE_VIOLATION") = true :=
  ⟨by decide, by decide, by decide, by decide, by decide⟩

/-- C10 (amended): a v0.2 spec with `writeScopes: []` and a non-explicit
expansion policy gets no `E320`; every write op in its built steps draws
an error diagnostic in {E301, E300, E302} — `E302` with the claimed
message exactly when the path is stack-allowed and not denied — and any
write op at all forces `ok: false` with no plan. -/
theorem claimC10 (pm : String → String → Bool) (input : CompileInput)
    (spec : Spec) (manifest : Manifest) (r : CompileOutput)
    (steps0 : List PStep) (dBuild : List Diag)
    (hp : input.parse = .ok spec)
    (hm : lookupRegistry input.registry spec.target = some (.ok manifest))
    (hv2 : spec.lang = .v02)
    (hsc : spec.effects.bind Effects.writeScopes = some [])
    (hpol : spec.effects.bind Effects.expansionPolicy ≠ some "explicit")
    (hs : compileStepsStage spec manifest = .ok (steps0, dBuild))
    (hr : compileWebSpec pm input = .ok r) :
    (∀ d ∈ r.diagnostics, d.code ≠ "E320_EFFECTS_SCOPE_REQUIRED") ∧
    (∀ s ∈ steps0, ∀ op ∈ s.ops, ∀ p, writePathOf op = some p →
      ∃ d ∈ r.diagnostics, d.severity = .error ∧
        d.code ∈ (["E301_DENIED_PATH", "E300_WRITE_OUTSIDE",
          "E302_SCOPE_VIOLATION"] : List String) ∧
        (((inferAllowedWrite manifest).2.any (fun g => pm p g) = false ∧
          (inferAllowedWrite manifest).1.any (fun g => pm p g) = true) →
          d.code = "E302_SCOPE_VIOLATION" ∧
          d.message = "Write outside spec.writeScopes: " ++ p)) ∧
    ((∃ s ∈ steps0, ∃ op ∈ s.ops, (writePathOf op).isSome = true) →
      r.ok = false ∧ r.plan = none) := by
  have hre := compileWebSpec_ok_eq pm input spec manifest steps0 dBuild r hp hm hs hr
  obtain ⟨hok, hdiag, hplan, _⟩ := finishCompile_spec
    (compileDiagnostics pm spec manifest steps0 dBuild) manifest
    input.sourceText (appendDocsAndArtifactsChecks spec steps0)
  rw [← hre] at hok hdiag hplan
  have hAll := compileDiagnostics_emitsOnly pm spec manifest steps0 dBuild
    (compileStepsStage_emits_v02 spec manifest steps0 dBuild hv2 hs) hpol
  have hb : ∀ s ∈ steps0, ∀ op ∈ s.ops, ∀ p, writePathOf op = some p →
      ∃ d ∈ r.diagnostics, d.severity = .error ∧
        d.code ∈ (["E301_DENIED_PATH", "E300_WRITE_OUTSIDE",
          "E302_SCOPE_VIOLATION"] : List String) ∧
        (((inferAllowedWrite manifest).2.any (fun g => pm p g) = false ∧
          (inferAllowedWrite manifest).1.any (fun g => pm p g) = true) →
          d.code = "E302_SCOPE_VIOLATION" ∧
          d.message = "Write outside spec.writeScopes: " ++ p) := by
    intro s hmem op hop p hw
    have key : ∃ d ∈ (effectCheckPath pm p (inferAllowedWrite manifest).1
        (some ([] : List String)) (inferAllowedWrite manifest).2).2,
        d.severity = .error ∧
        d.code ∈ (["E301_DENIED_PATH", "E300_WRITE_OUTSIDE",
          "E302_SCOPE_VIOLATION"] : List String) ∧
        (((inferAllowedWrite manifest).2.any (fun g => pm p g) = false ∧
          (inferAllowedWrite manifest).1.any (fun g => pm p g) = true) →
          d.code = "E302_SCOPE_VIOLATION" ∧
          d.message = "Write outside spec.writeScopes: " ++ p) := by
      by_cases hden : (inferAllowedWrite manifest).2.any (fun g => pm p g) = true
      · rw [effectCheckPath_E301 pm p _ _ _ hden]
        refine ⟨_, List.mem_singleton_self _, rfl, by simp [diagE], ?_⟩
        intro hc
        rw [hc.1] at hden
        exact absurd hden (by simp)
      · have hden2 : (inferAllowedWrite manifest).2.any (fun g => pm p g) = false := by
          simpa using hden
        by_cases hall : (inferAllowedWrite manifest).1.any (fun g => pm p g) = true
        · rw [effectCheckPath_E302 pm p _ [] _ hden2 hall rfl]
          exact ⟨_, List.mem_singleton_self _, rfl, by simp [diagE], fun _ => ⟨rfl, rfl⟩⟩
        · rw [effectCheckPath_E300 pm p _ (some []) _ hden2 (by simpa using hall)]
          exact ⟨_, List.mem_singleton_self _, rfl, by simp [diagE],
            fun hc => absurd hc.2 hall⟩
    obtain ⟨d, hdmem, hprops⟩ := key
    refine ⟨d, ?_, hprops⟩
    rw [hdiag]
    refine mem_compileDiagnostics_eff pm spec manifest steps0 dBuild d ?_
    refine effectLoop_mem pm _ _ _ _ _ _ s (appendDocs_sub spec steps0 s hmem) op hop d ?_
    rw [effectOpDiags_write pm _ _ _ _ _ op p hw, hsc]
    exact hdmem
  refine ⟨?_, hb, ?_⟩
  · intro d hd hcode
    have hmm := hd
    rw [hdiag] at hmm
    have := (hAll d hmm).2
    rw [hcode] at this
    exact absurd this (by decide)
  · intro hex
    obtain ⟨s, hmem, op, hop, hwsome⟩ := hex
    obtain ⟨p, hw⟩ := Option.isSome_iff_exists.mp hwsome
    obtain ⟨d, hdr, hsev, _⟩ := hb s hmem op hop p hw
    have hcnt : countErrors (compileDiagnostics pm spec manifest steps0 dBuild) ≠ 0 := by
      refine countErrors_ne_zero_of_mem ?_ hsev
      rw [← hdiag]
      exact hdr
    refine ⟨?_, ?_⟩
    · cases hbo : r.ok with
      | false => rfl
      | true => exact absurd (hok.mp hbo) hcnt
    · have : ¬ r.plan.isSome = true := fun h => hcnt (hplan.mp h)
      exact Option.not_isSome_iff_eq_none.mp this

/-- C10 (witness): `specScopesClean` (empty `writeScopes`, no expansion
policy, one write to the allowed un-denied `a.txt`): no `E320`, the write
op draws exactly the `E302` diagnostic, and the compile fails. -/
theorem claimC10_witness :
    compileWebSpec pmLit inputScopesClean = .ok outScopesClean ∧
    ((∀ d ∈ outScopesClean.diagnostics, d.code ≠ "E320_EFFECTS_SCOPE_REQUIRED") ∧
     (∀ s ∈ ([⟨"w", [], [.WRITE_FILE "a.txt" "x"], [.fileExists "a.txt"],
         some ["INV-01"], some []⟩] : List PStep), ∀ op ∈ s.ops, ∀ p,
       writePathOf op = some p →
       ∃ d ∈ outScopesClean.diagnostics, d.severity = .error ∧
         d.code ∈ (["E301_DENIED_PATH", "E300_WRITE_OUTSIDE",
           "E302_SCOPE_VIOLATION"] : List String) ∧
         (((inferAllowedWrite manifestScopes).2.any (fun g => pmLit p g) = false ∧
           (inferAllowedWrite manifestScopes).1.any (fun g => pmLit p g) = true) →
           d.code = "E302_SCOPE_VIOLATION" ∧
           d.message = "Write outside spec.writeScopes: " ++ p)) ∧
     ((∃ s ∈ ([⟨"w", [], [.WRITE_FILE "a.txt" "x"], [.fileExists "a.txt"],
         some ["INV-01"], some []⟩] : List PStep), ∃ op ∈ s.ops,
         (writePathOf op).isSome = true) →
       outScopesClean.ok = false ∧ outScopesClean.plan = none)) :=
  ⟨by decide,
   claimC10 pmLit inputScopesClean specScopesClean manifestScopes outScopesClean
     [⟨"w", [], [.WRITE_FILE "a.txt" "x"], [.fileExists "a.txt"],
       some ["INV-01"], some []⟩] []
     (by rfl) (by decide) (by decide) (by decide) (by decide) (by decide) (by decide)⟩

theorem contains_of_mem {l : List String} {x : String} (h : x ∈ l) :
    l.contains x = true := by
  simpa using h

theorem claims_ne_of_not_empty {o : Option (List String)}
    (h : stepClaimsEmpty o = false) : o.getD [] ≠ [] := by
  cases o with
  | none => simp [stepClaimsEmpty] at h
  | some l =>
    cases l with
    | nil => simp [stepClaimsEmpty] at h
    | cons a t => simp

/-- C2: a v0.2 spec that compiles to an ok plan has, in every plan step
with ops, at least one check and at least one claim, and every declared
invariant id is claimed by some plan step. -/
theorem claimC2 (pm : String → String → Bool) (input : CompileInput)
    (spec : Spec) (manifest : Manifest) (r : CompileOutput) (p : Plan)
    (hp : input.parse = .ok spec)
    (hm : lookupRegistry input.registry spec.target = some (.ok manifest))
    (hv2 : spec.lang = .v02)
    (hr : compileWebSpec pm input = .ok r)
    (hok : r.ok = true)
    (hplan : r.plan = some p) :
    (∀ s ∈ p.steps, s.ops ≠ [] → s.checks ≠ [] ∧ s.claims.getD [] ≠ []) ∧
    (∀ inv ∈ ((spec.intent.bind Intent.invariants).getD []).map Invariant.id,
      ∃ s ∈ p.steps, inv ∈ s.claims.getD []) := by
  rw [compileWebSpec_core pm input spec manifest hp hm] at hr
  rcases hstage : compileStepsStage spec manifest with e | ⟨steps0, dBuild⟩
  · simp only [compileCore, hstage] at hr
    exact Except.noConfusion hr
  · simp only [compileCore, hstage] at hr
    have hre : r = finishCompile (compileDiagnostics pm spec manifest steps0 dBuild)
        manifest input.sourceText (appendDocsAndArtifactsChecks spec steps0) :=
      (Except.ok.inj hr).symm
    obtain ⟨hokIff, hdiag, hplanIff, hplanEq⟩ := finishCompile_spec
      (compileDiagnostics pm spec manifest steps0 dBuild) manifest
      input.sourceText (appendDocsAndArtifactsChecks spec steps0)
    rw [← hre] at hokIff hplanEq
    have h0 : countErrors (compileDiagnostics pm spec manifest steps0 dBuild) = 0 :=
      hokIff.mp hok
    have hps : p.steps = appendDocsAndArtifactsChecks spec steps0 := by
      rw [hplanEq p hplan]
    rcases hvad : validateAssumptionsAndDecisions spec with ⟨dmap, dAssume⟩
    simp only [compileDiagnostics, hvad] at h0
    by_cases hcust : (!(spec.steps.getD []).isEmpty) = true
    · rw [if_pos hcust] at h0
      simp only [countErrors_append] at h0
      have hEff : countErrors (effectLoop pm (inferAllowedWrite manifest).1
          (spec.effects.bind Effects.writeScopes) (inferAllowedWrite manifest).2
          manifest.commands.allowPrefixes (manifest.commands.denySubstrings.getD [])
          (appendDocsAndArtifactsChecks spec steps0)) = 0 := by omega
      have hCl : countErrors (validateClaims spec steps0
          ((spec.steps.getD []).map StepDecl.id)) = 0 := by omega
      have hVC : validateClaims spec steps0 ((spec.steps.getD []).map StepDecl.id) = [] :=
        eq_nil_of_emitsOnly (validateClaims_emits spec _ _) hCl
      obtain ⟨hclaims1, hclaims2⟩ := validateClaims_nil spec steps0 _ hVC
      have hisF : (spec.steps.getD []).isEmpty = false := by simpa using hcust
      have hbs : buildStepsFromSpec spec manifest = (steps0, dBuild) :=
        Except.ok.inj ((compileStepsStage_custom spec manifest hisF).symm.trans hstage)
      have hids : ∀ s ∈ steps0,
          ((spec.steps.getD []).map StepDecl.id).contains s.id = true := by
        intro s hs0
        have h5 := buildStepsGo_ids manifest (spec.steps.getD []) s
        have hfst : (buildStepsGo manifest (spec.steps.getD [])).1 = steps0 :=
          congrArg Prod.fst hbs
        rw [hfst] at h5
        exact contains_of_mem (h5 hs0)
      constructor
      · intro s hsp hops
        rw [hps] at hsp
        refine ⟨effectLoop_zero_proofs pm _ _ _ _ _ _ hEff s hsp hops, ?_⟩
        rcases mem_appendDocs spec steps0 s hsp with hs0 | hnil
        · exact claims_ne_of_not_empty (hclaims1 s hs0 (hids s hs0) hops)
        · exact absurd hnil hops
      · intro inv hinv
        have hinv2 : inv ∈ dedupFirst
            (((spec.intent.bind Intent.invariants).getD []).map Invariant.id) :=
          (mem_dedupFirst inv _).mpr hinv
        obtain ⟨s, hs0, _, hx⟩ := hclaims2 inv hinv2
        refine ⟨s, ?_, hx⟩
        rw [hps]
        exact appendDocs_sub spec steps0 s hs0
    · exfalso
      unfold compileStepsStage at hstage
      rw [if_neg hcust, if_pos hv2] at hstage
      injection hstage with hpd
      injection hpd with h1 h2
      rw [if_neg hcust] at h0
      simp only [countErrors_append] at h0
      rw [← h2] at h0
      have h902 : countErrors [diagE "E902_STEPS_REQUIRED"
          "v0.2 specs require explicit steps."
          (some "Add steps with actions/ensures/claims to keep the agent on track.")
          none] = 1 := rfl
      rw [h902] at h0
      omega

/-- C2 (witness): the well-formed one-step v0.2 input. -/
theorem claimC2_witness :
    compileWebSpec pmLit inputV2ok = .ok outV2ok ∧ outV2ok.ok = true ∧
    outV2ok.plan = some planV2ok ∧
    ((∀ s ∈ planV2ok.steps, s.ops ≠ [] → s.checks ≠ [] ∧ s.claims.getD [] ≠ []) ∧
     (∀ inv ∈ ((specV2ok.intent.bind Intent.invariants).getD []).map Invariant.id,
       ∃ s ∈ planV2ok.steps, inv ∈ s.claims.getD [])) :=
  ⟨by rfl, rfl, rfl,
   claimC2 pmLit inputV2ok specV2ok manifestStar outV2ok planV2ok
     (by rfl) (by rfl) (by rfl) (by rfl) (by rfl) (by rfl)⟩

/-! ## Render placeholder lemmas (for the macro expander contract) -/

theorem renderDotsF_nil (vars : List (String × JVal)) (fuel : Nat) :
    renderDotsF vars fuel [] = [] := by
  cases fuel <;> rfl

theorem renderPlainF_nil (vars : List (String × JVal)) (fuel : Nat) :
    renderPlainF vars fuel [] = [] := by
  cases fuel <;> rfl

theorem renderDotsF_cons_ne (vars : List (String × JVal)) (fuel : Nat)
    (c : Char) (cs : List Char) (hc : c ≠ '$') :
    renderDotsF vars (fuel + 1) (c :: cs) = c :: renderDotsF vars fuel cs := by
  rw [renderDotsF.eq_def]
  split
  · omega
  · rename_i hf heq
    injection heq with h1 h2
    exact absurd h1 hc
  · rename_i fl f2 d2 ds h1 h2
    injection h2 with e1 e2
    have hfl : fl = fuel := by omega
    rw [← e1, ← e2, hfl]
  · rename_i heq hf
    exact absurd heq (by simp)

theorem renderPlainF_cons_ne (vars : List (String × JVal)) (fuel : Nat)
    (c : Char) (cs : List Char) (hc : c ≠ '$') :
    renderPlainF vars (fuel + 1) (c :: cs) = c :: renderPlainF vars fuel cs := by
  rw [renderPlainF.eq_def]
  split
  · omega
  · rename_i hf heq
    injection heq with h1 h2
    exact absurd h1 hc
  · rename_i fl f2 d2 ds h1 h2
    injection h2 with e1 e2
    have hfl : fl = fuel := by omega
    rw [← e1, ← e2, hfl]
  · rename_i heq hf
    exact absurd heq (by simp)

theorem renderDotsF_no_dollar (vars : List (String × JVal)) :
    ∀ (l : List Char) (fuel : Nat), (∀ c ∈ l, c ≠ '$') → renderDotsF vars fuel l = l
  | l, 0 => fun _ => by cases l <;> rfl
  | [], fuel + 1 => fun _ => renderDotsF_nil vars _
  | c :: cs, fuel + 1 => fun h => by
    rw [renderDotsF_cons_ne vars fuel c cs (h c (List.mem_cons_self _ _))]
    rw [renderDotsF_no_dollar vars cs fuel (fun d hd => h d (List.mem_cons_of_mem _ hd))]

theorem renderPlainF_no_dollar (vars : List (String × JVal)) :
    ∀ (l : List Char) (fuel : Nat), (∀ c ∈ l, c ≠ '$') → renderPlainF vars fuel l = l
  | l, 0 => fun _ => by cases l <;> rfl
  | [], fuel + 1 => fun _ => renderPlainF_nil vars _
  | c :: cs, fuel + 1 => fun h => by
    rw [renderPlainF_cons_ne vars fuel c cs (h c (List.mem_cons_self _ _))]
    rw [renderPlainF_no_dollar vars cs fuel (fun d hd => h d (List.mem_cons_of_mem _ hd))]

theorem takeWhile_drop_append (p : Char → Bool) :
    ∀ (l r : List Char), (∀ c ∈ l, p c = true) →
      (∀ c, r.head? = some c → p c = false) →
      (l ++ r).takeWhile p = l ∧ (l ++ r).dropWhile p = r
  | [], r => by
    intro _ hr
    cases r with
    | nil => exact ⟨rfl, rfl⟩
    | cons c rs =>
      have hc := hr c rfl
      rw [List.nil_append]
      constructor
      · simp [List.takeWhile_cons, hc]
      · simp [List.dropWhile_cons, hc]
  | a :: l, r => by
    intro hl hr
    have ha : p a = true := hl a (List.mem_cons_self _ _)
    have ih := takeWhile_drop_append p l r (fun c hc => hl c (List.mem_cons_of_mem _ hc)) hr
    constructor
    · rw [List.cons_append]
      simp [List.takeWhile_cons, ha, ih.1]
    · rw [List.cons_append]
      simp [List.dropWhile_cons, ha, ih.2]

theorem isWordChar_ne_dollar {c : Char} (h : isWordChar c = true) : c ≠ '$' := by
  intro hc
  rw [hc] at h
  exact absurd h (by decide)

theorem renderDotsF_step (vars : List (String × JVal)) (k : List Char) (f : Nat)
    (hk1 : k ≠ []) (hk2 : ∀ c ∈ k, isWordChar c = true) :
    renderDotsF vars (f + 1) ('$' :: '\x7b' :: (k ++ ['.', '.', '.', '\x7d'])) =
      (dotsValue (lookupVar vars (String.mk k))).data := by
  obtain ⟨ht, hd⟩ := takeWhile_drop_append isWordChar k ['.', '.', '.', '\x7d'] hk2
    (fun c hc => by cases hc; decide)
  simp only [renderDotsF]
  rw [ht, hd]
  rw [if_pos (by rw [decide_eq_true hk1]; rfl)]
  rw [show (['.', '.', '.', '\x7d'] : List Char).drop 4 = [] from rfl]
  rw [renderDotsF_nil, List.append_nil]

theorem renderPlainF_step (vars : List (String × JVal)) (k : List Char) (f : Nat)
    (hk1 : k ≠ []) (hk2 : ∀ c ∈ k, isWordChar c = true) :
    renderPlainF vars (f + 1) ('$' :: '\x7b' :: (k ++ ['\x7d'])) =
      (plainValue (lookupVar vars (String.mk k))).data := by
  obtain ⟨ht, hd⟩ := takeWhile_drop_append isWordChar k ['\x7d'] hk2
    (fun c hc => by cases hc; decide)
  simp only [renderPlainF]
  rw [ht, hd]
  rw [if_pos (by rw [decide_eq_true hk1]; rfl)]
  rw [show (['\x7d'] : List Char).drop 1 = [] from rfl]
  rw [renderPlainF_nil, List.append_nil]

theorem renderDotsF_plain_tpl (vars : List (String × JVal)) (k : List Char) (f : Nat)
    (hk2 : ∀ c ∈ k, isWordChar c = true) :
    renderDotsF vars (f + 1) ('$' :: '\x7b' :: (k ++ ['\x7d'])) =
      '$' :: '\x7b' :: (k ++ ['\x7d']) := by
  obtain ⟨ht, hd⟩ := takeWhile_drop_append isWordChar k ['\x7d'] hk2
    (fun c hc => by cases hc; decide)
  simp only [renderDotsF]
  rw [ht, hd]
  rw [if_neg (fun hcond => by
    rw [Bool.and_eq_true] at hcond
    exact absurd hcond.2 (by decide))]
  rw [renderDotsF_no_dollar vars (k ++ ['\x7d']) f (fun c hc => by
    rcases List.mem_append.mp hc with h1 | h1
    · exact isWordChar_ne_dollar (hk2 c h1)
    · rcases List.mem_singleton.mp h1 with rfl
      decide)]

/-- `render` on the exact template `$\x7bk\x7d` is the plain placeholder
value. -/
theorem render_plain_placeholder (k : String) (vars : List (String × JVal))
    (hk1 : k.data ≠ []) (hk2 : ∀ c ∈ k.data, isWordChar c = true) :
    render ("$\x7b" ++ k ++ "\x7d") vars = plainValue (lookupVar vars k) := by
  have hdata : ("$\x7b" ++ k ++ "\x7d").data =
      '$' :: '\x7b' :: (k.data ++ ['\x7d']) := rfl
  rw [render, hdata, renderDots]
  rw [show ('$' :: '\x7b' :: (k.data ++ ['\x7d'])).length =
    (k.data ++ ['\x7d']).length + 1 + 1 from rfl]
  rw [renderDotsF_plain_tpl vars k.data _ hk2, renderPlain]
  rw [show ('$' :: '\x7b' :: (k.data ++ ['\x7d'])).length =
    (k.data ++ ['\x7d']).length + 1 + 1 from rfl]
  rw [renderPlainF_step vars k.data _ hk1 hk2]

/-- `render` on the exact template `$\x7bk...\x7d`, when the substituted
value has no dollar sign, is the dots placeholder value. -/
theorem render_dots_placeholder (k : String) (vars : List (String × JVal))
    (hk1 : k.data ≠ []) (hk2 : ∀ c ∈ k.data, isWordChar c = true)
    (hval : ∀ c ∈ (dotsValue (lookupVar vars k)).data, c ≠ '$') :
    render ("$\x7b" ++ k ++ "...\x7d") vars = dotsValue (lookupVar vars k) := by
  have hdata : ("$\x7b" ++ k ++ "...\x7d").data =
      '$' :: '\x7b' :: (k.data ++ ['.', '.', '.', '\x7d']) := rfl
  rw [render, hdata, renderDots]
  rw [show ('$' :: '\x7b' :: (k.data ++ ['.', '.', '.', '\x7d'])).length =
    (k.data ++ ['.', '.', '.', '\x7d']).length + 1 + 1 from rfl]
  rw [renderDotsF_step vars k.data _ hk1 hk2, renderPlain]
  rw [renderPlainF_no_dollar vars _ _ hval]

/-! ## normalizeMacroVars lemmas -/

theorem lookupVar_cons (k0 : String) (v0 : JVal) (rest : List (String × JVal)) (k : String) :
    lookupVar ((k0, v0) :: rest) k =
      if (k0 == k) = true then some v0 else lookupVar rest k := by
  cases hn : (k0 == k) with
  | true => simp [lookupVar, List.find?, hn]
  | false => simp [lookupVar, List.find?, hn]

theorem setVar_lookup_self (vars : List (String × JVal)) (k : String) (v : JVal) :
    lookupVar (setVar vars k v) k = some v := by
  induction vars with
  | nil => simp [setVar, lookupVar, List.find?]
  | cons p rest ih =>
    rcases p with ⟨k0, v0⟩
    rw [setVar]
    by_cases h : (k0 == k) = true
    · rw [if_pos h, lookupVar_cons, if_pos h]
    · rw [if_neg h, lookupVar_cons, if_neg h]
      exact ih

theorem setVar_lookup_other (vars : List (String × JVal)) (k k2 : String) (v : JVal)
    (hne : k ≠ k2) :
    lookupVar (setVar vars k v) k2 = lookupVar vars k2 := by
  induction vars with
  | nil =>
    rw [setVar, lookupVar_cons]
    rw [if_neg (by simp [hne])]
  | cons p rest ih =>
    rcases p with ⟨k0, v0⟩
    rw [setVar]
    by_cases h : (k0 == k) = true
    · have hk0 : k0 = k := by simpa using h
      have h2 : ¬ ((k0 == k2) = true) := by simp [hk0, hne]
      rw [if_pos h, lookupVar_cons, lookupVar_cons, if_neg h2, if_neg h2]
    · rw [if_neg h, lookupVar_cons, lookupVar_cons]
      by_cases h3 : (k0 == k2) = true
      · rw [if_pos h3, if_pos h3]
      · rw [if_neg h3, if_neg h3]
        exact ih

/-- The diagnostics of the `normalizeMacroVars` loop: one `E201` per
declared argument missing from the supplied args, in declaration order. -/
theorem normVarsGo_diags (args : List (String × JVal)) :
    ∀ (l : List (String × ArgType)) (vars : List (String × JVal)),
      (normVarsGo args vars l).2 =
        (l.filter (fun kv => !(hasKey args kv.1))).map (fun kv =>
          diagE "E201_MISSING_MACRO_ARG" ("Missing macro arg: " ++ kv.1)
            (some ("Provide \"" ++ kv.1 ++ "\" in macro args.")) none)
  | [], vars => by rw [normVarsGo]; rfl
  | (key, typ) :: rest, vars => by
    rw [normVarsGo]
    by_cases hk : hasKey args key = true
    · rw [if_neg (fun hcond => hcond hk)]
      split
      · rw [List.filter_cons]
        rw [if_neg (by simp [hk])]
        exact normVarsGo_diags args rest _
      · rw [List.filter_cons]
        rw [if_neg (by simp [hk])]
        exact normVarsGo_diags args rest _
    · have hf : hasKey args key = false := by simpa using hk
      rw [if_pos (by simp [hf])]
      rcases hnv : normVarsGo args (setVar vars key (.jstr "")) rest with ⟨v, ds⟩
      simp only [hnv]
      rw [List.filter_cons]
      rw [if_pos (by simp [hf])]
      rw [List.map_cons]
      have ih := normVarsGo_diags args rest (setVar vars key (.jstr ""))
      simp only [hnv] at ih
      rw [ih]

/-- The loop only rebinds declared keys. -/
theorem normVarsGo_fst_notin (args : List (String × JVal)) :
    ∀ (l : List (String × ArgType)) (vars : List (String × JVal)) (key : String),
      key ∉ l.map Prod.fst →
      lookupVar (normVarsGo args vars l).1 key = lookupVar vars key
  | [], vars, key => fun _ => rfl
  | (k0, typ) :: rest, vars, key => by
    intro hnot
    have h12 : key ≠ k0 ∧ key ∉ rest.map Prod.fst := by simpa using hnot
    rw [normVarsGo]
    split
    · rcases hnv : normVarsGo args (setVar vars k0 (.jstr "")) rest with ⟨v, ds⟩
      simp only [hnv]
      have ih := normVarsGo_fst_notin args rest (setVar vars k0 (.jstr "")) key h12.2
      simp only [hnv] at ih
      rw [ih]
      exact setVar_lookup_other vars k0 key _ (fun he => h12.1 he.symm)
    · split
      · exact (normVarsGo_fst_notin args rest _ key h12.2).trans
          (setVar_lookup_other vars k0 key _ (fun he => h12.1 he.symm))
      · exact normVarsGo_fst_notin args rest vars key h12.2

/-- Final binding of a declared argument: the empty string when the
argument was missing; the stringified supplied value when it is
json-typed and present. -/
theorem normVarsGo_lookup (args : List (String × JVal)) :
    ∀ (l : List (String × ArgType)) (vars : List (String × JVal)) (key : String)
      (typ : ArgType),
      (l.map Prod.fst).Nodup → (key, typ) ∈ l →
      (hasKey args key = false →
        lookupVar (normVarsGo args vars l).1 key = some (.jstr "")) ∧
      (typ = .json → hasKey args key = true →
        lookupVar (normVarsGo args vars l).1 key =
          some (.jstr (stringify ((lookupVar args key).getD .jnull))))
  | [], vars, key, typ => fun _ hm => absurd hm (by simp)
  | (k0, t0) :: rest, vars, key, typ => by
    intro hnd hm
    have hnd2 : k0 ∉ rest.map Prod.fst ∧ (rest.map Prod.fst).Nodup := by
      simpa [List.nodup_cons] using hnd
    rcases List.mem_cons.mp hm with heq | htail
    · injection heq with e1 e2
      subst e1
      subst e2
      constructor
      · intro hmiss
        rw [normVarsGo, if_pos (by simp [hmiss])]
        rcases hnv : normVarsGo args (setVar vars key (.jstr "")) rest with ⟨v, ds⟩
        simp only [hnv]
        have ih := normVarsGo_fst_notin args rest (setVar vars key (.jstr "")) key hnd2.1
        simp only [hnv] at ih
        rw [ih, setVar_lookup_self]
      · intro hj hpres
        rw [normVarsGo, if_neg (fun hcond => hcond hpres), if_pos hj]
        rw [normVarsGo_fst_notin args rest _ key hnd2.1, setVar_lookup_self]
    · rw [normVarsGo]
      split
      · rcases hnv : normVarsGo args (setVar vars k0 (.jstr "")) rest with ⟨v, ds⟩
        simp only [hnv]
        have ih := normVarsGo_lookup args rest (setVar vars k0 (.jstr "")) key typ
          hnd2.2 htail
        simp only [hnv] at ih
        exact ih
      · split
        · exact normVarsGo_lookup args rest _ key typ hnd2.2 htail
        · exact normVarsGo_lookup args rest vars key typ hnd2.2 htail

theorem expandActions_length (vars : List (String × JVal)) :
    ∀ l : List MacroAction, (expandActions vars l).length = l.length
  | [] => rfl
  | .run cmd cwd :: rest => by
    rw [expandActions]
    simp [expandActions_length vars rest]
  | .writeFile p c :: rest => by
    rw [expandActions]
    simp [expandActions_length vars rest]
  | .appendFile p c :: rest => by
    rw [expandActions]
    simp [expandActions_length vars rest]
  | .writeTemplate p t vs :: rest => by
    rw [expandActions]
    simp [expandActions_length vars rest]

/-- C9: the macro expander contract — an unknown macro yields no ops and
exactly the `E200` diagnostic; a found macro expands every action (one op
each) with one `E201` per missing declared argument (in order), binds
missing arguments to the empty string and json-typed supplied arguments
to their `JSON.stringify` serialization, and `render` substitutes
`$\x7bname\x7d` by the string value and `$\x7bname...\x7d` by the
space-joined list value. -/
theorem claimC9 (manifest : Manifest) (name : String) (args : List (String × JVal)) :
    (findMacro manifest name = none →
      expandMacro name args manifest =
        ([], [diagE "E200_UNKNOWN_MACRO" ("Unknown macro: " ++ name)
          (some "Define it in the stack manifest.") none])) ∧
    (∀ mac, findMacro manifest name = some mac →
      (expandMacro name args manifest).1.length = mac.expandsTo.length ∧
      (expandMacro name args manifest).2 =
        (mac.args.filter (fun kv => !(hasKey args kv.1))).map (fun kv =>
          diagE "E201_MISSING_MACRO_ARG" ("Missing macro arg: " ++ kv.1)
            (some ("Provide \"" ++ kv.1 ++ "\" in macro args.")) none) ∧
      ((mac.args.map Prod.fst).Nodup →
        ∀ key typ, (key, typ) ∈ mac.args →
          (hasKey args key = false →
            lookupVar (normalizeMacroVars args mac).1 key = some (.jstr "")) ∧
          (typ = .json → hasKey args key = true →
            lookupVar (normalizeMacroVars args mac).1 key =
              some (.jstr (stringify ((lookupVar args key).getD .jnull)))))) ∧
    (∀ (k : String) (vars : List (String × JVal)),
      k.data ≠ [] → (∀ c ∈ k.data, isWordChar c = true) →
      render ("$\x7b" ++ k ++ "\x7d") vars = plainValue (lookupVar vars k)) ∧
    (∀ (k : String) (vars : List (String × JVal)),
      k.data ≠ [] → (∀ c ∈ k.data, isWordChar c = true) →
      (∀ c ∈ (dotsValue (lookupVar vars k)).data, c ≠ '$') →
      render ("$\x7b" ++ k ++ "...\x7d") vars = dotsValue (lookupVar vars k)) := by
  refine ⟨?_, ?_, render_plain_placeholder, render_dots_placeholder⟩
  · intro h
    simp only [expandMacro, h]
  · intro mac hf
    refine ⟨?_, ?_, ?_⟩
    · simp only [expandMacro, hf]
      rcases hnv : normalizeMacroVars args mac with ⟨vars, ds⟩
      simp only [hnv]
      exact expandActions_length vars mac.expandsTo
    · simp only [expandMacro, hf]
      rcases hnv : normalizeMacroVars args mac with ⟨vars, ds⟩
      simp only [hnv]
      have h2 := normVarsGo_diags args mac.args args
      simp only [show normVarsGo args args mac.args = (vars, ds) from hnv] at h2
      exact h2
    · intro hnd key typ hm
      exact normVarsGo_lookup args mac.args args key typ hnd hm

/-- C9 (witness): the two-argument macro `m` of `manifestC9` called with
only its json argument. -/
theorem claimC9_witness :
    expandMacro "nope" [("j", JVal.jstr "x")] manifestC9 =
      ([], [diagE "E200_UNKNOWN_MACRO" ("Unknown macro: " ++ "nope")
        (some "Define it in the stack manifest.") none]) ∧
    (expandMacro "m" [("j", JVal.jstr "x")] manifestC9).1.length =
      mdefC9.expandsTo.length ∧
    (expandMacro "m" [("j", JVal.jstr "x")] manifestC9).2 =
      (mdefC9.args.filter (fun kv => !(hasKey [("j", JVal.jstr "x")] kv.1))).map (fun kv =>
        diagE "E201_MISSING_MACRO_ARG" ("Missing macro arg: " ++ kv.1)
          (some ("Provide \"" ++ kv.1 ++ "\" in macro args.")) none) ∧
    lookupVar (normalizeMacroVars [("j", JVal.jstr "x")] mdefC9).1 "a" =
      some (.jstr "") ∧
    lookupVar (normalizeMacroVars [("j", JVal.jstr "x")] mdefC9).1 "j" =
      some (.jstr (stringify ((lookupVar [("j", JVal.jstr "x")] "j").getD .jnull))) ∧
    render ("$\x7b" ++ "a" ++ "\x7d") [("a", JVal.jstr "v")] =
      plainValue (lookupVar [("a", JVal.jstr "v")] "a") ∧
    render ("$\x7b" ++ "xs" ++ "...\x7d")
        [("xs", JVal.jarr [JVal.jstr "p", JVal.jstr "q"])] =
      dotsValue (lookupVar [("xs", JVal.jarr [JVal.jstr "p", JVal.jstr "q"])] "xs") := by
  have h1 := claimC9 manifestC9 "nope" [("j", JVal.jstr "x")]
  have h2 := (claimC9 manifestC9 "m" [("j", JVal.jstr "x")]).2.1 mdefC9 (by rfl)
  refine ⟨h1.1 (by rfl), h2.1, h2.2.1, ?_, ?_, ?_, ?_⟩
  · exact (h2.2.2 (by decide) "a" .str (by decide)).1 (by decide)
  · exact (h2.2.2 (by decide) "j" .json (by decide)).2 rfl (by decide)
  · exact (claimC9 manifestC9 "m" [("j", JVal.jstr "x")]).2.2.1 "a" [("a", JVal.jstr "v")]
      (by decide) (by decide)
  · exact (claimC9 manifestC9 "m" [("j", JVal.jstr "x")]).2.2.2 "xs"
      [("xs", JVal.jarr [JVal.jstr "p", JVal.jstr "q"])] (by decide) (by decide) (by decide)

end WebSpec
